import Mathlib

/-!
Verification of the pi-mesh coordination engine against its specification.

The TypeScript sources are shallowly embedded: JavaScript strings are
modelled as lists of characters (`JStr`), JavaScript numbers that hold
millisecond durations are modelled as `Int` (with `Option Int` where the
source can produce `NaN`), the filesystem directories the code reads and
writes are modelled as association lists from file names to file contents,
and process liveness is an explicit boolean-valued parameter.  Each Lean
definition is translated from the named function of the repository.
-/

/-- JavaScript strings, modelled as lists of characters. -/
abbrev JStr := List Char

/-- Embed a Lean string literal as a `JStr`. -/
def jstr (s : String) : JStr := s.data

/-- Model of JavaScript `haystack.startsWith(pat)`. -/
def jsStartsWith : JStr → JStr → Bool
  | _, [] => true
  | [], _ :: _ => false
  | a :: s, b :: p => a == b && jsStartsWith s p

/-- Model of JavaScript `haystack.endsWith(pat)`. -/
def jsEndsWith (s pat : JStr) : Bool :=
  jsStartsWith s.reverse pat.reverse

/-- Digits of a natural number, as a `JStr` (JavaScript template `${n}`). -/
def natStr (n : Nat) : JStr := (Nat.repr n).data

theorem jsStartsWith_iff (s pat : JStr) :
    jsStartsWith s pat = true ↔ ∃ rest, s = pat ++ rest := by
  induction pat generalizing s with
  | nil => simp [jsStartsWith]
  | cons b p ih =>
    cases s with
    | nil => simp [jsStartsWith]
    | cons a s =>
      simp only [jsStartsWith, Bool.and_eq_true, beq_iff_eq, ih, List.cons_append,
        List.cons.injEq]
      constructor
      · rintro ⟨rfl, rest, rfl⟩; exact ⟨rest, rfl, rfl⟩
      · rintro ⟨rest, rfl, rfl⟩; exact ⟨rfl, rest, rfl⟩

-- =============================================================================
-- registry.ts : pathMatchesReservation  (claim C4)
-- =============================================================================

/-- Translation of `pathMatchesReservation` from `registry.ts`:
a pattern ending in `/` matches when the file path starts with the pattern
or when the file path plus `/` equals the pattern; otherwise the match is
exact string equality. -/
def pathMatchesReservation (filePath pattern : JStr) : Bool :=
  if jsEndsWith pattern (jstr "/") then
    jsStartsWith filePath pattern || (filePath ++ jstr "/" == pattern)
  else
    filePath == pattern

-- =============================================================================
-- registry.ts : formatDuration, computeStatus  (claims C2, C3)
-- =============================================================================

/-- The four agent status values of `computeStatus` in `registry.ts`. -/
inductive AgentStatus
  | active
  | idle
  | away
  | stuck
deriving DecidableEq, Repr

/-- The result record of `computeStatus`. -/
structure ComputedStatus where
  status : AgentStatus
  idleFor : Option JStr
deriving DecidableEq, Repr

/-- Translation of `formatDuration` from `registry.ts` (the argument is a
millisecond count; every call site passes a non-negative elapsed time). -/
def formatDuration (ms : Nat) : JStr :=
  let seconds := ms / 1000
  let minutes := seconds / 60
  let hours := minutes / 60
  if hours > 0 then natStr hours ++ jstr "h " ++ natStr (minutes % 60) ++ jstr "m"
  else if minutes > 0 then natStr minutes ++ jstr "m " ++ natStr (seconds % 60) ++ jstr "s"
  else natStr seconds ++ jstr "s"

/-- Translation of `computeStatus` from `registry.ts`.  The source computes
`elapsed = Date.now() - new Date(lastActivityAt).getTime()`; that number is
supplied here as the argument, with `none` standing for the `NaN` produced
by an unparseable timestamp.  `ACTIVE_MS = 30_000`, `IDLE_MS = 5 * 60_000`. -/
def computeStatus (elapsed : Option Int) (hasReservation : Bool)
    (thresholdMs : Int) : ComputedStatus :=
  match elapsed with
  | none => ⟨.active, none⟩
  | some e =>
    if e < 0 then ⟨.active, none⟩
    else if e < 30000 then ⟨.active, none⟩
    else if e < 300000 then ⟨.idle, some (formatDuration e.toNat)⟩
    else if !hasReservation then ⟨.away, some (formatDuration e.toNat)⟩
    else if thresholdMs ≤ e then ⟨.stuck, some (formatDuration e.toNat)⟩
    else ⟨.idle, some (formatDuration e.toNat)⟩

-- =============================================================================
-- tracking.ts : addModifiedFile  (claim C9)
-- =============================================================================

/-- Translation of `addModifiedFile` from `tracking.ts`: remove the first
occurrence of the path if present (`indexOf` + `splice`), push the path at
the end, and drop the oldest entry when the list exceeds 20. -/
def addModifiedFile (filePath : JStr) (files : List JStr) : List JStr :=
  let files1 := if files.contains filePath then files.erase filePath else files
  let files2 := files1 ++ [filePath]
  if files2.length > 20 then files2.tail else files2

theorem addModifiedFile_inv (fs : List JStr) (q : JStr)
    (h1 : fs.length ≤ 20) (h2 : fs.Nodup) :
    (addModifiedFile q fs).length ≤ 20 ∧ (addModifiedFile q fs).Nodup ∧
      (addModifiedFile q fs).getLast? = some q := by
  unfold addModifiedFile
  set files1 := if fs.contains q then fs.erase q else fs with hf1
  have hlen1 : files1.length ≤ 20 := by
    rw [hf1]; split
    · exact le_trans (List.length_erase_le _ _) h1
    · exact h1
  have hnd1 : files1.Nodup := by
    rw [hf1]; split
    · exact h2.erase q
    · exact h2
  have hmem1 : q ∉ files1 := by
    rw [hf1]; split
    · exact h2.not_mem_erase
    · simp_all
  have hnd2 : (files1 ++ [q]).Nodup := by
    refine List.Nodup.append hnd1 (List.nodup_singleton q) ?_
    intro a ha hb
    simp only [List.mem_singleton] at hb
    exact hmem1 (hb ▸ ha)
  have hlast2 : (files1 ++ [q]).getLast? = some q := by
    simp [List.getLast?_append]
  by_cases hlen : (files1 ++ [q]).length > 20
  · simp only [hlen, if_true]
    refine ⟨?_, ?_, ?_⟩
    · have := List.length_tail (files1 ++ [q])
      have hfl : (files1 ++ [q]).length = files1.length + 1 := by simp
      omega
    · cases h : (files1 ++ [q]) with
      | nil => simp
      | cons a t => rw [h] at hnd2; simpa using hnd2.of_cons
    · cases hc : files1 with
      | nil => simp [hc] at hlen
      | cons a t => simp [List.getLast?_append]
  · simp only [hlen, if_false]
    exact ⟨by omega, hnd2, hlast2⟩

/-- The fold of `addModifiedFile` over any operation sequence keeps the
invariant: at most 20 entries, no duplicates. -/
theorem addModifiedFile_fold_inv (ops : List JStr) (fs : List JStr)
    (h1 : fs.length ≤ 20) (h2 : fs.Nodup) :
    ((ops.foldl (fun acc p => addModifiedFile p acc) fs).length ≤ 20 ∧
      (ops.foldl (fun acc p => addModifiedFile p acc) fs).Nodup) := by
  induction ops generalizing fs with
  | nil => exact ⟨h1, h2⟩
  | cons p rest ih =>
    simp only [List.foldl_cons]
    obtain ⟨ha, hb, _⟩ := addModifiedFile_inv fs p h1 h2
    exact ih _ ha hb

-- =============================================================================
-- Claim theorems C2, C3, C4, C9
-- =============================================================================

/-- C2: for every last-activity timestamp, reservation flag, and stuck
threshold, `computeStatus` returns active below 30 seconds, idle between
30 seconds and 5 minutes, away at 5 minutes or more with no reservation,
stuck at 5 minutes or more with a reservation once elapsed reaches the
stuck threshold, idle otherwise, and degrades to active (without error) on
NaN or negative elapsed time. -/
theorem computeStatus_thresholds (res : Bool) (thr : Int) :
    computeStatus none res thr = ⟨.active, none⟩ ∧
    (∀ e : Int, e < 0 → computeStatus (some e) res thr = ⟨.active, none⟩) ∧
    (∀ e : Int, 0 ≤ e → e < 30000 → computeStatus (some e) res thr = ⟨.active, none⟩) ∧
    (∀ e : Int, 30000 ≤ e → e < 300000 → (computeStatus (some e) res thr).status = .idle) ∧
    (∀ e : Int, 300000 ≤ e → res = false → (computeStatus (some e) res thr).status = .away) ∧
    (∀ e : Int, 300000 ≤ e → res = true → thr ≤ e →
      (computeStatus (some e) res thr).status = .stuck) ∧
    (∀ e : Int, 300000 ≤ e → res = true → e < thr →
      (computeStatus (some e) res thr).status = .idle) := by
  refine ⟨rfl, ?_, ?_, ?_, ?_, ?_, ?_⟩
  · intro e he
    simp [computeStatus, he]
  · intro e he1 he2
    have h0 : ¬ e < 0 := by omega
    simp [computeStatus, h0, he2]
  · intro e he1 he2
    have h0 : ¬ e < 0 := by omega
    have h30 : ¬ e < 30000 := by omega
    simp [computeStatus, h0, h30, he2]
  · intro e he1 hres
    subst hres
    have h0 : ¬ e < 0 := by omega
    have h30 : ¬ e < 30000 := by omega
    have h300 : ¬ e < 300000 := by omega
    simp [computeStatus, h0, h30, h300]
  · intro e he1 hres hthr
    subst hres
    have h0 : ¬ e < 0 := by omega
    have h30 : ¬ e < 30000 := by omega
    have h300 : ¬ e < 300000 := by omega
    simp [computeStatus, h0, h30, h300, hthr]
  · intro e he1 hres hthr
    subst hres
    have h0 : ¬ e < 0 := by omega
    have h30 : ¬ e < 30000 := by omega
    have h300 : ¬ e < 300000 := by omega
    have hnthr : ¬ thr ≤ e := by omega
    simp [computeStatus, h0, h30, h300, hnthr]

/-- Witness for `computeStatus_thresholds` at concrete inputs. -/
theorem computeStatus_thresholds_witness :
    computeStatus (some 10000) true 900000 = ⟨.active, none⟩ ∧
    (computeStatus (some 1200000) true 900000).status = .stuck :=
  ⟨(computeStatus_thresholds true 900000).2.2.1 10000 (by decide) (by decide),
   (computeStatus_thresholds true 900000).2.2.2.2.2.1 1200000 (by decide) rfl (by decide)⟩

/-- C3 (counterexample): at an elapsed time of 200 seconds with no
reservation, `computeStatus` does not return away — 200 seconds is still
below the 5-minute idle bound, so the code returns idle. -/
theorem computeStatus_200s_not_away :
    (computeStatus (some 200000) false 900000).status ≠ AgentStatus.away := by decide

/-- C3 (amended): elapsed 10 seconds gives active; elapsed 200 seconds with
no reservation gives idle with an idleFor duration; elapsed 20 minutes with
a reservation and a 900-second threshold gives stuck. -/
theorem computeStatus_examples :
    (∀ (res : Bool) (thr : Int), computeStatus (some 10000) res thr = ⟨.active, none⟩) ∧
    (∀ thr : Int, computeStatus (some 200000) false thr
        = ⟨.idle, some (jstr "3m 20s")⟩) ∧
    computeStatus (some 1200000) true 900000 = ⟨.stuck, some (jstr "20m 0s")⟩ := by
  refine ⟨fun res thr => rfl, fun thr => rfl, by decide⟩

/-- C4: a pattern without a trailing slash matches exactly the pattern
itself; a pattern with a trailing slash matches precisely the paths that
extend it (prefix with the slash as boundary) and the directory itself
written without the slash; together with the concrete examples of the
specification. -/
theorem pathMatchesReservation_spec :
    (∀ p pat : JStr, jsEndsWith pat (jstr "/") = false →
      (pathMatchesReservation p pat = true ↔ p = pat)) ∧
    (∀ p pat : JStr, jsEndsWith pat (jstr "/") = true →
      (pathMatchesReservation p pat = true ↔
        (∃ rest, p = pat ++ rest) ∨ p ++ jstr "/" = pat)) ∧
    pathMatchesReservation (jstr "src/auth/x.ts") (jstr "src/auth/") = true ∧
    pathMatchesReservation (jstr "src/auth") (jstr "src/auth/") = true ∧
    pathMatchesReservation (jstr "src/authorization/x.ts") (jstr "src/auth/") = false ∧
    pathMatchesReservation (jstr "pkg.json") (jstr "pkg.json") = true ∧
    pathMatchesReservation (jstr "pkg-lock.json") (jstr "pkg.json") = false := by
  refine ⟨?_, ?_, by decide, by decide, by decide, by decide, by decide⟩
  · intro p pat h
    simp [pathMatchesReservation, h]
  · intro p pat h
    simp [pathMatchesReservation, h, jsStartsWith_iff]

/-- Witness for `pathMatchesReservation_spec` at concrete patterns. -/
theorem pathMatchesReservation_spec_witness :
    (pathMatchesReservation (jstr "a.txt") (jstr "a.txt") = true ↔
      jstr "a.txt" = jstr "a.txt") ∧
    (pathMatchesReservation (jstr "d/x") (jstr "d/") = true ↔
      (∃ rest, jstr "d/x" = jstr "d/" ++ rest) ∨ jstr "d/x" ++ jstr "/" = jstr "d/") :=
  ⟨pathMatchesReservation_spec.1 (jstr "a.txt") (jstr "a.txt") (by decide),
   pathMatchesReservation_spec.2.1 (jstr "d/x") (jstr "d/") (by decide)⟩

/-- C9: after any sequence of recorded file modifications, the modified
files list holds at most 20 entries, contains no duplicate paths, and the
most recently recorded path is the last element. -/
theorem modifiedFiles_ring_inv (ops : List JStr) (p : JStr) :
    ((ops.foldl (fun acc q => addModifiedFile q acc) []).length ≤ 20 ∧
      (ops.foldl (fun acc q => addModifiedFile q acc) []).Nodup) ∧
    ((ops ++ [p]).foldl (fun acc q => addModifiedFile q acc) []).getLast? = some p := by
  obtain ⟨h1, h2⟩ := addModifiedFile_fold_inv ops [] (by simp) (by simp)
  refine ⟨⟨h1, h2⟩, ?_⟩
  rw [List.foldl_append]
  simpa using (addModifiedFile_inv _ p h1 h2).2.2

-- =============================================================================
-- feed.ts : FeedEvent, appendEvent, readEvents  (claim C8)
-- =============================================================================

/-- The feed event record of `types.ts`: timestamp, agent, event type,
optional target and optional preview.  The TypeScript `FeedEventType` union
is erased at runtime, so the `type` field is a string. -/
structure FeedEvent where
  ts : JStr
  agent : JStr
  type : JStr
  target : Option JStr
  preview : Option JStr
deriving DecidableEq, Repr

def hexDigit (n : Nat) : Char :=
  if n < 10 then Char.ofNat (48 + n) else Char.ofNat (87 + n)

def hexDigitVal (c : Char) : Option Nat :=
  if 48 ≤ c.toNat ∧ c.toNat ≤ 57 then some (c.toNat - 48)
  else if 97 ≤ c.toNat ∧ c.toNat ≤ 102 then some (c.toNat - 87)
  else if 65 ≤ c.toNat ∧ c.toNat ≤ 70 then some (c.toNat - 55)
  else none

def escapeChar (c : Char) : List Char :=
  if c = '"' then ['\\', '"']
  else if c = '\\' then ['\\', '\\']
  else if c = '\x08' then ['\\', 'b']
  else if c = '\x09' then ['\\', 't']
  else if c = '\x0a' then ['\\', 'n']
  else if c = '\x0c' then ['\\', 'f']
  else if c = '\x0d' then ['\\', 'r']
  else if c.toNat < 32 then
    ['\\', 'u', '0', '0', hexDigit (c.toNat / 16), hexDigit (c.toNat % 16)]
  else [c]

def quoteStr (s : JStr) : JStr :=
  '"' :: (s.map escapeChar).flatten ++ ['"']

def encodeEvent (e : FeedEvent) : JStr :=
  jstr "\x7b\"ts\":" ++ quoteStr e.ts
    ++ jstr ",\"agent\":" ++ quoteStr e.agent
    ++ jstr ",\"type\":" ++ quoteStr e.type
    ++ (match e.target with
        | none => []
        | some t => jstr ",\"target\":" ++ quoteStr t)
    ++ (match e.preview with
        | none => []
        | some t => jstr ",\"preview\":" ++ quoteStr t)
    ++ jstr "\x7d"

def parseStringBody : List Char → Option (JStr × List Char)
  | [] => none
  | c :: r =>
    if c = '"' then some ([], r)
    else if c = '\\' then
      match r with
      | [] => none
      | d :: r1 =>
        if d = '"' then (parseStringBody r1).map fun p => ('"' :: p.1, p.2)
        else if d = '\\' then (parseStringBody r1).map fun p => ('\\' :: p.1, p.2)
        else if d = '/' then (parseStringBody r1).map fun p => ('/' :: p.1, p.2)
        else if d = 'b' then (parseStringBody r1).map fun p => ('\x08' :: p.1, p.2)
        else if d = 'f' then (parseStringBody r1).map fun p => ('\x0c' :: p.1, p.2)
        else if d = 'n' then (parseStringBody r1).map fun p => ('\x0a' :: p.1, p.2)
        else if d = 'r' then (parseStringBody r1).map fun p => ('\x0d' :: p.1, p.2)
        else if d = 't' then (parseStringBody r1).map fun p => ('\x09' :: p.1, p.2)
        else if d = 'u' then
          match r1 with
          | h1 :: h2 :: h3 :: h4 :: r2 =>
            match hexDigitVal h1, hexDigitVal h2, hexDigitVal h3, hexDigitVal h4 with
            | some a, some b, some g, some k =>
              (parseStringBody r2).map fun p =>
                (Char.ofNat (4096 * a + 256 * b + 16 * g + k) :: p.1, p.2)
            | _, _, _, _ => none
          | _ => none
        else none
    else if c.toNat < 32 then none
    else (parseStringBody r).map fun p => (c :: p.1, p.2)

def parseLit : JStr → List Char → Option (List Char)
  | [], s => some s
  | _ :: _, [] => none
  | c :: l, d :: s => if c = d then parseLit l s else none

def parseJString : List Char → Option (JStr × List Char)
  | [] => none
  | c :: r => if c = '"' then parseStringBody r else none

def parseOptField (key : JStr) (r : List Char) : Option (Option JStr × List Char) :=
  match parseLit (jstr ",\"" ++ key ++ jstr "\":") r with
  | none => some (none, r)
  | some r1 =>
    match parseJString r1 with
    | none => none
    | some (v, r2) => some (some v, r2)

def parseEventLine (line : JStr) : Option FeedEvent :=
  match parseLit (jstr "\x7b\"ts\":") line with
  | none => none
  | some r0 =>
    match parseJString r0 with
    | none => none
    | some (ts, r1) =>
      match parseLit (jstr ",\"agent\":") r1 with
      | none => none
      | some r2 =>
        match parseJString r2 with
        | none => none
        | some (agent, r3) =>
          match parseLit (jstr ",\"type\":") r3 with
          | none => none
          | some r4 =>
            match parseJString r4 with
            | none => none
            | some (ty, r5) =>
              match parseOptField (jstr "target") r5 with
              | none => none
              | some (target, r6) =>
                match parseOptField (jstr "preview") r6 with
                | none => none
                | some (preview, r7) =>
                  match parseLit (jstr "\x7d") r7 with
                  | some [] => some ⟨ts, agent, ty, target, preview⟩
                  | _ => none

def isJsWs (c : Char) : Bool :=
  c = ' ' || c = '\t' || c = '\n' || c = '\r' || c = '\x0b' || c = '\x0c'

def jsTrim (s : JStr) : JStr :=
  ((s.dropWhile isJsWs).reverse.dropWhile isJsWs).reverse

def splitNl : JStr → List JStr
  | [] => [[]]
  | c :: r =>
    if c = '\n' then [] :: splitNl r
    else
      match splitNl r with
      | [] => [[c]]
      | h :: t => (c :: h) :: t

def appendEvent (content : JStr) (e : FeedEvent) : JStr :=
  content ++ (encodeEvent e ++ jstr "\n")

def jsSliceLast (l : List FeedEvent) (limit : Nat) : List FeedEvent :=
  if limit = 0 then l else l.drop (l.length - limit)

def readEvents (content : JStr) (limit : Nat) : List FeedEvent :=
  let t := jsTrim content
  if t = [] then []
  else jsSliceLast ((splitNl t).filterMap parseEventLine) limit





theorem hexDigitVal_hexDigit {n : Nat} (h : n < 16) : hexDigitVal (hexDigit n) = some n := by
  have hall : ∀ m : Fin 16, hexDigitVal (hexDigit m.val) = some m.val := by decide
  simpa using hall ⟨n, h⟩

theorem parseStringBody_escape (s : JStr) (rest : List Char) :
    parseStringBody ((s.map escapeChar).flatten ++ '"' :: rest) = some (s, rest) := by
  induction s with
  | nil => rw [parseStringBody.eq_def]; simp
  | cons c s ih =>
    simp only [List.map_cons, List.flatten_cons, List.append_assoc]
    by_cases h1 : c = '"'
    · subst h1
      rw [show escapeChar '"' ++ ((List.map escapeChar s).flatten ++ '"' :: rest)
            = '\\' :: '"' :: ((List.map escapeChar s).flatten ++ '"' :: rest) from rfl]
      rw [parseStringBody.eq_def]; simp [ih]
    by_cases h2 : c = '\\'
    · subst h2
      rw [show escapeChar '\\' ++ ((List.map escapeChar s).flatten ++ '"' :: rest)
            = '\\' :: '\\' :: ((List.map escapeChar s).flatten ++ '"' :: rest) from rfl]
      rw [parseStringBody.eq_def]; simp [ih]
    by_cases h3 : c = '\x08'
    · subst h3
      rw [show escapeChar '\x08' ++ ((List.map escapeChar s).flatten ++ '"' :: rest)
            = '\\' :: 'b' :: ((List.map escapeChar s).flatten ++ '"' :: rest) from rfl]
      rw [parseStringBody.eq_def]; simp [ih]
    by_cases h4 : c = '\x09'
    · subst h4
      rw [show escapeChar '\x09' ++ ((List.map escapeChar s).flatten ++ '"' :: rest)
            = '\\' :: 't' :: ((List.map escapeChar s).flatten ++ '"' :: rest) from rfl]
      rw [parseStringBody.eq_def]; simp [ih]
    by_cases h5 : c = '\x0a'
    · subst h5
      rw [show escapeChar '\x0a' ++ ((List.map escapeChar s).flatten ++ '"' :: rest)
            = '\\' :: 'n' :: ((List.map escapeChar s).flatten ++ '"' :: rest) from rfl]
      rw [parseStringBody.eq_def]; simp [ih]
    by_cases h6 : c = '\x0c'
    · subst h6
      rw [show escapeChar '\x0c' ++ ((List.map escapeChar s).flatten ++ '"' :: rest)
            = '\\' :: 'f' :: ((List.map escapeChar s).flatten ++ '"' :: rest) from rfl]
      rw [parseStringBody.eq_def]; simp [ih]
    by_cases h7 : c = '\x0d'
    · subst h7
      rw [show escapeChar '\x0d' ++ ((List.map escapeChar s).flatten ++ '"' :: rest)
            = '\\' :: 'r' :: ((List.map escapeChar s).flatten ++ '"' :: rest) from rfl]
      rw [parseStringBody.eq_def]; simp [ih]
    by_cases h8 : c.toNat < 32
    · have hd1 : c.toNat / 16 < 16 := by omega
      have hd2 : c.toNat % 16 < 16 := Nat.mod_lt _ (by norm_num)
      have h0 : hexDigitVal '0' = some 0 := by decide
      simp only [escapeChar, if_neg h1, if_neg h2, if_neg h3, if_neg h4, if_neg h5,
        if_neg h6, if_neg h7, if_pos h8, List.cons_append, List.nil_append]
      rw [parseStringBody.eq_def]
      simp only [reduceIte, reduceCtorEq]
      simp [h0, hexDigitVal_hexDigit hd1, hexDigitVal_hexDigit hd2, ih]
      rw [show (16 : Nat) * (c.toNat / 16) + c.toNat % 16 = c.toNat by omega]
      exact Char.ofNat_toNat c
    · simp only [escapeChar, if_neg h1, if_neg h2, if_neg h3, if_neg h4, if_neg h5,
        if_neg h6, if_neg h7, if_neg h8, List.cons_append, List.nil_append]
      rw [parseStringBody.eq_def]
      simp [h1, h2, h8, ih]

theorem parseLit_self (l : JStr) (rest : List Char) :
    parseLit l (l ++ rest) = some rest := by
  induction l with
  | nil => simp [parseLit]
  | cons c l ih => simp [parseLit, ih]

theorem parseJString_quote (s : JStr) (rest : List Char) :
    parseJString (quoteStr s ++ rest) = some (s, rest) := by
  simp [quoteStr, parseJString, List.append_assoc, parseStringBody_escape]

theorem parseOptField_target_hit (t : JStr) (rest : List Char) :
    parseOptField (jstr "target") (jstr ",\"target\":" ++ (quoteStr t ++ rest))
      = some (some t, rest) := by
  have hlit : jstr ",\"" ++ jstr "target" ++ jstr "\":" = jstr ",\"target\":" := rfl
  simp [parseOptField, hlit, parseLit_self, parseJString_quote]

theorem parseOptField_preview_hit (p : JStr) (rest : List Char) :
    parseOptField (jstr "preview") (jstr ",\"preview\":" ++ (quoteStr p ++ rest))
      = some (some p, rest) := by
  have hlit : jstr ",\"" ++ jstr "preview" ++ jstr "\":" = jstr ",\"preview\":" := rfl
  simp [parseOptField, hlit, parseLit_self, parseJString_quote]

theorem parseOptField_target_miss_preview (X : List Char) :
    parseOptField (jstr "target") (jstr ",\"preview\":" ++ X)
      = some (none, jstr ",\"preview\":" ++ X) := by
  have hlit : jstr ",\"" ++ jstr "target" ++ jstr "\":" = jstr ",\"target\":" := rfl
  have h1 : jstr ",\"target\":" = [',', '"', 't', 'a', 'r', 'g', 'e', 't', '"', ':'] := rfl
  have h2 : jstr ",\"preview\":" = [',', '"', 'p', 'r', 'e', 'v', 'i', 'e', 'w', '"', ':'] := rfl
  rw [parseOptField, hlit, h1, h2]
  simp [parseLit]

theorem parseOptField_target_rb :
    parseOptField (jstr "target") (jstr "\x7d") = some (none, jstr "\x7d") := by decide

theorem parseOptField_preview_rb :
    parseOptField (jstr "preview") (jstr "\x7d") = some (none, jstr "\x7d") := by decide

theorem parseLit_rb : parseLit (jstr "\x7d") (jstr "\x7d") = some [] := by decide

theorem parseEventLine_encode (e : FeedEvent) :
    parseEventLine (encodeEvent e) = some e := by
  obtain ⟨ts, ag, ty, tg, pv⟩ := e
  cases tg <;> cases pv <;>
    simp [encodeEvent, parseEventLine, List.append_assoc, parseLit_self,
      parseJString_quote, parseOptField_target_hit, parseOptField_preview_hit,
      parseOptField_target_miss_preview, parseOptField_target_rb,
      parseOptField_preview_rb, parseLit_rb]

theorem splitNl_ne_nil (s : JStr) : splitNl s ≠ [] := by
  cases s with
  | nil => simp [splitNl]
  | cons c r =>
    simp only [splitNl]
    split
    · simp
    · cases h : splitNl r <;> simp

theorem splitNl_no_nl (z : JStr) (hz : '\n' ∉ z) : splitNl z = [z] := by
  induction z with
  | nil => rfl
  | cons c r ih =>
    have hc : ¬ c = '\n' := fun h => hz (h ▸ List.mem_cons_self c r)
    have hr : '\n' ∉ r := fun h => hz (List.mem_cons_of_mem c h)
    simp [splitNl, hc, ih hr]

theorem splitNl_append (w z : JStr) (hz : '\n' ∉ z) :
    splitNl (w ++ '\n' :: z) = splitNl w ++ [z] := by
  induction w with
  | nil => simp [splitNl, splitNl_no_nl z hz]
  | cons c w ih =>
    have hnl : ∀ X : JStr, splitNl ('\n' :: X) = [] :: splitNl X := by
      intro X; simp [splitNl]
    by_cases hc : c = '\n'
    · subst hc
      rw [List.cons_append, hnl, hnl, ih]
      simp
    · cases hw : splitNl w with
      | nil => exact absurd hw (splitNl_ne_nil w)
      | cons hh tt =>
        have hL : splitNl (c :: (w ++ '\n' :: z)) = (c :: hh) :: (tt ++ [z]) := by
          simp only [splitNl, if_neg hc, ih, hw, List.cons_append]
        have hR : splitNl (c :: w) = (c :: hh) :: tt := by
          simp only [splitNl, if_neg hc, hw]
        rw [List.cons_append, hL, hR]
        simp

theorem hexDigit_ne_nl {n : Nat} (h : n < 16) : hexDigit n ≠ '\n' := by
  have hall : ∀ m : Fin 16, hexDigit m.val ≠ '\n' := by decide
  simpa using hall ⟨n, h⟩

theorem nl_not_mem_escapeChar (c : Char) : '\n' ∉ escapeChar c := by
  unfold escapeChar
  by_cases h1 : c = '"'
  · simp [h1]
  by_cases h2 : c = '\\'
  · simp [h1, h2]
  by_cases h3 : c = '\x08'
  · simp [h1, h2, h3]
  by_cases h4 : c = '\x09'
  · simp [h1, h2, h3, h4]
  by_cases h5 : c = '\x0a'
  · simp [h1, h2, h3, h4, h5]
  by_cases h6 : c = '\x0c'
  · simp [h1, h2, h3, h4, h5, h6]
  by_cases h7 : c = '\x0d'
  · simp [h1, h2, h3, h4, h5, h6, h7]
  by_cases h8 : c.toNat < 32
  · have hd1 : c.toNat / 16 < 16 := by omega
    have hd2 : c.toNat % 16 < 16 := Nat.mod_lt _ (by norm_num)
    simp [h1, h2, h3, h4, h5, h6, h7, h8, List.mem_cons,
      (hexDigit_ne_nl hd1).symm, (hexDigit_ne_nl hd2).symm]
  · have hcn : ¬ c = '\n' := by
      intro h; rw [h] at h8; exact h8 (by decide)
    simp [h1, h2, h3, h4, h5, h6, h7, h8]
    exact fun h => hcn h.symm

theorem nl_not_mem_quoteStr (s : JStr) : '\n' ∉ quoteStr s := by
  unfold quoteStr
  intro h
  rcases List.mem_cons.mp h with h | h
  · exact absurd h.symm (by decide)
  rcases List.mem_append.mp h with h | h
  · obtain ⟨l, hl, hmem⟩ := List.mem_flatten.mp h
    obtain ⟨c, _, rfl⟩ := List.mem_map.mp hl
    exact nl_not_mem_escapeChar c hmem
  · exact absurd (List.mem_singleton.mp h) (by decide)

theorem nl_not_mem_encodeEvent (e : FeedEvent) : '\n' ∉ encodeEvent e := by
  obtain ⟨ts, ag, ty, tg, pv⟩ := e
  have hA : '\n' ∉ jstr "\x7b\"ts\":" := by decide
  have hB : '\n' ∉ jstr ",\"agent\":" := by decide
  have hC : '\n' ∉ jstr ",\"type\":" := by decide
  have hD : '\n' ∉ jstr ",\"target\":" := by decide
  have hE : '\n' ∉ jstr ",\"preview\":" := by decide
  have hF : '\n' ∉ jstr "\x7d" := by decide
  cases tg <;> cases pv <;>
    simp [encodeEvent, List.mem_append, hA, hB, hC, hD, hE, hF,
      nl_not_mem_quoteStr]

theorem encodeEvent_head (e : FeedEvent) : ∃ r, encodeEvent e = '\x7b' :: r :=
  ⟨_, rfl⟩

theorem encodeEvent_ne_nil (e : FeedEvent) : encodeEvent e ≠ [] := by
  obtain ⟨r, hr⟩ := encodeEvent_head e
  rw [hr]; simp

theorem encodeEvent_getLast? (e : FeedEvent) : (encodeEvent e).getLast? = some '\x7d' := by
  have h7 : (jstr "\x7d").getLast? = some '\x7d' := rfl
  obtain ⟨ts, ag, ty, tg, pv⟩ := e
  cases tg <;> cases pv <;> simp [encodeEvent, List.getLast?_append, h7, Option.or]

theorem encodeEvent_eq_append (e : FeedEvent) :
    encodeEvent e = (encodeEvent e).dropLast ++ ['\x7d'] := by
  have hne := encodeEvent_ne_nil e
  have h1 := encodeEvent_getLast? e
  rw [List.getLast?_eq_getLast _ hne, Option.some_inj] at h1
  conv_lhs => rw [← List.dropLast_append_getLast hne]
  rw [h1]

theorem jsTrim_appendEvent (content : JStr) (e : FeedEvent) :
    jsTrim (appendEvent content e) = content.dropWhile isJsWs ++ encodeEvent e := by
  obtain ⟨r, hr⟩ := encodeEvent_head e
  have hwsbrace : isJsWs '\x7b' = false := by decide
  unfold appendEvent jsTrim
  have hstep1 : (content ++ (encodeEvent e ++ jstr "\n")).dropWhile isJsWs
      = content.dropWhile isJsWs ++ (encodeEvent e ++ jstr "\n") := by
    rw [List.dropWhile_append]
    split_ifs with hemp
    · rw [List.isEmpty_iff.mp hemp, List.nil_append]
      rw [hr, List.cons_append, List.dropWhile_cons, hwsbrace]
      simp
    · rfl
  rw [hstep1]
  have hrev : (content.dropWhile isJsWs ++ (encodeEvent e ++ jstr "\n")).reverse
      = '\n' :: ((encodeEvent e).reverse ++ (content.dropWhile isJsWs).reverse) := by
    rw [show jstr "\n" = ['\n'] from rfl]
    simp
  rw [hrev]
  have hnlws : isJsWs '\n' = true := by decide
  rw [List.dropWhile_cons, hnlws]
  simp only [if_true]
  obtain ⟨q, hq⟩ : ∃ q, (encodeEvent e).reverse = '\x7d' :: q := by
    refine ⟨(encodeEvent e).dropLast.reverse, ?_⟩
    conv_lhs => rw [encodeEvent_eq_append e]
    simp
  have hq2 : encodeEvent e = q.reverse ++ ['\x7d'] := by
    have h := congrArg List.reverse hq
    simpa using h
  rw [hq, List.cons_append, List.dropWhile_cons]
  have h7ws : isJsWs '\x7d' = false := by decide
  rw [h7ws]
  simp only [Bool.false_eq_true, if_false]
  rw [hq2]
  simp

theorem jsSliceLast_getLast? (l : List FeedEvent) (limit : Nat) (hl : 1 ≤ limit) :
    (jsSliceLast l limit).getLast? = l.getLast? := by
  unfold jsSliceLast
  rw [if_neg (by omega)]
  rw [List.getLast?_drop]
  split_ifs with h
  · have hz : l.length = 0 := by omega
    rw [List.length_eq_zero.mp hz]
    rfl
  · rfl

/-- C8 (amended): for every feed event and every prior feed content that is
empty or newline-terminated (every state produced by append and prune is),
appending the event and reading back with a positive limit yields a list
whose last element is exactly the appended event. -/
theorem readEvents_appendEvent_roundtrip (content : JStr) (e : FeedEvent) (limit : Nat)
    (hc : content = [] ∨ jsEndsWith content (jstr "\n") = true) (hl : 1 ≤ limit) :
    (readEvents (appendEvent content e) limit).getLast? = some e := by
  have htrim := jsTrim_appendEvent content e
  have hDcase : content.dropWhile isJsWs = []
      ∨ ∃ w, content.dropWhile isJsWs = w ++ ['\n'] := by
    rcases hc with rfl | hend
    · left; rfl
    · by_cases hDnil : content.dropWhile isJsWs = []
      · left; exact hDnil
      · right
        obtain ⟨rest, hrest⟩ := (jsStartsWith_iff _ _).mp hend
        have hcl : content.getLast? = some '\n' := by
          have h := congrArg List.reverse hrest
          simp only [List.reverse_reverse] at h
          rw [h]
          simp [List.getLast?_append]
          exact Or.inl rfl
        obtain ⟨pre, hpre⟩ := List.dropWhile_suffix (l := content) isJsWs
        have hlast : (content.dropWhile isJsWs).getLast? = some '\n' := by
          rw [← hpre, List.getLast?_append] at hcl
          rw [List.getLast?_eq_getLast _ hDnil] at hcl ⊢
          simpa using hcl
        refine ⟨(content.dropWhile isJsWs).dropLast, ?_⟩
        rw [List.getLast?_eq_getLast _ hDnil, Option.some_inj] at hlast
        conv_lhs => rw [← List.dropLast_append_getLast hDnil]
        rw [hlast]
  rcases hDcase with hD0 | ⟨w, hw⟩
  · rw [hD0, List.nil_append] at htrim
    simp only [readEvents]
    rw [htrim, if_neg (encodeEvent_ne_nil e)]
    rw [splitNl_no_nl _ (nl_not_mem_encodeEvent e)]
    rw [jsSliceLast_getLast? _ _ hl]
    simp [parseEventLine_encode]
  · rw [hw] at htrim
    have hassoc : (w ++ ['\n']) ++ encodeEvent e = w ++ '\n' :: encodeEvent e := by simp
    rw [hassoc] at htrim
    simp only [readEvents]
    rw [htrim]
    have hne2 : w ++ '\n' :: encodeEvent e ≠ [] := by simp
    rw [if_neg hne2]
    rw [splitNl_append w _ (nl_not_mem_encodeEvent e)]
    rw [List.filterMap_append]
    rw [jsSliceLast_getLast? _ _ hl]
    simp [parseEventLine_encode]


/-- Witness for `readEvents_appendEvent_roundtrip` on an empty feed. -/
theorem readEvents_appendEvent_roundtrip_witness :
    (readEvents (appendEvent []
        ⟨jstr "2024-01-01", jstr "zero-1", jstr "join", none, none⟩) 20).getLast?
      = some ⟨jstr "2024-01-01", jstr "zero-1", jstr "join", none, none⟩ :=
  readEvents_appendEvent_roundtrip [] _ 20 (Or.inl rfl) (by decide)

/-- C8 (counterexample): when the prior feed content is a partial line with
no trailing newline (here the single character x), the appended event merges
with that line, the merged line fails to parse, and the read returns an
empty list — the appended event is not the last element. -/
theorem readEvents_partial_write_loses_event :
    readEvents (appendEvent (jstr "x")
        ⟨jstr "t", jstr "a", jstr "join", none, none⟩) 100 = [] ∧
    (readEvents (appendEvent (jstr "x")
        ⟨jstr "t", jstr "a", jstr "join", none, none⟩) 100).getLast?
      ≠ some ⟨jstr "t", jstr "a", jstr "join", none, none⟩ := by
  constructor
  · decide
  · decide

-- =============================================================================
-- Shared filesystem and JavaScript Map models
-- =============================================================================

/-- A directory of JSON files, modelled as an association list from file
name to parse result; a value `none` in the codomain of the parse models a
file whose content fails `JSON.parse` (partial write, corruption).  The same
model serves for JavaScript `Map`s keyed by strings. -/
abbrev FileDir (β : Type) := List (JStr × β)

/-- Model of `readFileSync` plus `JSON.parse` (or `Map.get`): the value at
the first entry with the given name, `none` when no such file exists. -/
def fsRead {β : Type} : FileDir β → JStr → Option β
  | [], _ => none
  | (k, v) :: rest, name => if k = name then some v else fsRead rest name

/-- Model of `unlinkSync`: remove the named file. -/
def fsDelete {β : Type} : FileDir β → JStr → FileDir β
  | [], _ => []
  | (k, v) :: rest, name =>
    if k = name then fsDelete rest name else (k, v) :: fsDelete rest name

/-- Model of `writeFileSync` (or `Map.set`): replace the named entry, or
append it when absent. -/
def fsWrite {β : Type} : FileDir β → JStr → β → FileDir β
  | [], name, v => [(name, v)]
  | (k, w) :: rest, name, v =>
    if k = name then (name, v) :: rest else (k, w) :: fsWrite rest name v

theorem fsRead_fsDelete_ne {β : Type} (files : FileDir β) (k k' : JStr) (h : k' ≠ k) :
    fsRead (fsDelete files k) k' = fsRead files k' := by
  induction files with
  | nil => rfl
  | cons kv rest ih =>
    obtain ⟨a, v⟩ := kv
    by_cases ha : a = k
    · subst ha
      have e1 : fsDelete ((a, v) :: rest) a = fsDelete rest a := by simp [fsDelete]
      have e2 : fsRead ((a, v) :: rest) k' = fsRead rest k' := by
        simp only [fsRead]
        rw [if_neg (fun he => h he.symm)]
      rw [e1, ih, e2]
    · have e1 : fsDelete ((a, v) :: rest) k = (a, v) :: fsDelete rest k := by
        simp [fsDelete, ha]
      rw [e1]
      by_cases ha2 : a = k'
      · subst ha2; simp [fsRead]
      · have e2 : ∀ X : FileDir β, fsRead ((a, v) :: X) k' = fsRead X k' := by
          intro X; simp [fsRead, ha2]
        rw [e2, e2, ih]

theorem fsRead_fsWrite_self {β : Type} (files : FileDir β) (k : JStr) (v : β) :
    fsRead (fsWrite files k v) k = some v := by
  induction files with
  | nil => simp [fsWrite, fsRead]
  | cons kv rest ih =>
    obtain ⟨a, w⟩ := kv
    by_cases ha : a = k
    · simp [fsWrite, ha, fsRead]
    · simp [fsWrite, ha, fsRead, ih]

theorem fsRead_fsWrite_ne {β : Type} (files : FileDir β) (k k' : JStr) (v : β) (h : k' ≠ k) :
    fsRead (fsWrite files k v) k' = fsRead files k' := by
  have hne : ¬ k = k' := fun he => h he.symm
  induction files with
  | nil => simp [fsWrite, fsRead, hne]
  | cons kv rest ih =>
    obtain ⟨a, w⟩ := kv
    by_cases ha : a = k
    · subst ha
      simp [fsWrite, fsRead, hne]
    · simp only [fsWrite, if_neg ha, fsRead, ih]

-- =============================================================================
-- types.ts : registration records and mesh state
-- =============================================================================

/-- Session counters of a registration (`AgentSession` in `types.ts`). -/
structure AgentSession where
  toolCalls : Nat
  tokens : Nat
  filesModified : List JStr
deriving DecidableEq, Repr

/-- Activity snapshot of a registration (`AgentActivity` in `types.ts`). -/
structure AgentActivity where
  lastActivityAt : JStr
  currentActivity : Option JStr
  lastToolCall : Option JStr
deriving DecidableEq, Repr

/-- One file reservation (`FileReservation` in `types.ts`). -/
structure FileReservation where
  pattern : JStr
  reason : Option JStr
  since : JStr
deriving DecidableEq, Repr

/-- A registry record (`AgentRegistration` in `types.ts`).  `session` and
`activity` are optional here because a record parsed from disk can lack
them; `getActiveAgents` fills in defaults for such records. -/
structure AgentRegistration where
  name : JStr
  agentType : JStr
  pid : Nat
  sessionId : JStr
  cwd : JStr
  model : JStr
  startedAt : JStr
  reservations : Option (List FileReservation)
  gitBranch : Option JStr
  isHuman : Bool
  session : Option AgentSession
  activity : Option AgentActivity
  statusMessage : Option JStr
deriving DecidableEq, Repr

/-- A mesh message (`MeshMessage` in `types.ts`); the source fields `from`
and `to` are named `fromName` and `toName` here because both words are
reserved in Lean. -/
structure MeshMessage where
  id : JStr
  fromName : JStr
  toName : JStr
  text : JStr
  timestamp : JStr
  urgent : Bool
  replyTo : Option JStr
deriving DecidableEq, Repr

/-- The registry directory: file name to parsed record (`none` = malformed). -/
abbrev RegDir := FileDir (Option AgentRegistration)

/-- The in-memory per-agent state (`MeshState` in `types.ts`).  Timer and
watcher handles are modelled by their presence. -/
structure MeshState where
  agentName : JStr
  agentType : JStr
  registered : Bool
  watcher : Bool
  watcherRetryTimer : Bool
  watcherDebounceTimer : Bool
  reservations : List FileReservation
  chatHistory : FileDir (List MeshMessage)
  unreadCounts : FileDir Nat
  model : JStr
  gitBranch : Option JStr
  isHuman : Bool
  session : AgentSession
  activity : AgentActivity
  statusMessage : Option JStr
  customStatus : Bool
  registryFlushTimer : Bool
  sessionStartedAt : JStr
deriving DecidableEq, Repr

-- =============================================================================
-- registry.ts : isValidAgentName, generateName  (claim C10)
-- =============================================================================

/-- First character class of the agent-name regular expression
`[a-zA-Z0-9_]`. -/
def isNameStartChar (c : Char) : Bool :=
  (97 ≤ c.toNat && c.toNat ≤ 122) || (65 ≤ c.toNat && c.toNat ≤ 90) ||
    (48 ≤ c.toNat && c.toNat ≤ 57) || c = '_'

/-- Tail character class `[a-zA-Z0-9_-]`. -/
def isNameTailChar (c : Char) : Bool :=
  isNameStartChar c || c = '-'

/-- Translation of `isValidAgentName` from `registry.ts`: nonempty, at most
50 characters, and matching `^[a-zA-Z0-9_][a-zA-Z0-9_-]*$`. -/
def isValidAgentName (name : JStr) : Bool :=
  if name.isEmpty || name.length > 50 then false
  else
    match name with
    | [] => false
    | c :: rest => isNameStartChar c && rest.all isNameTailChar

/-- Model of JavaScript `s.replace(pat, rep)` with a string pattern: replace
the first occurrence only. -/
def jsReplaceFirst (pat rep : JStr) : JStr → JStr
  | [] => if jsStartsWith [] pat then rep ++ ([].drop pat.length) else []
  | c :: r =>
    if jsStartsWith (c :: r) pat then rep ++ (c :: r).drop pat.length
    else c :: jsReplaceFirst pat rep r

/-- The set of record names the registry listing yields in `generateName`:
every file ending in `.json`, with the first `.json` occurrence removed. -/
def existingNames (files : RegDir) : List JStr :=
  (files.map Prod.fst).filterMap fun f =>
    if jsEndsWith f (jstr ".json") then some (jsReplaceFirst (jstr ".json") [] f)
    else none

/-- The sequential candidate name: the JavaScript template
expression of `generateName`. -/
def seqName (agentType : JStr) (i : Nat) : JStr :=
  agentType ++ jstr "-" ++ natStr i

/-- The `for (let i = 1; i <= 99; i++)` loop of `generateName`, with the
remaining iteration count as explicit fuel.  A candidate name is returned
when it has no record, when its record fails to read or parse, or when its
record names a dead process; a live record moves to the next candidate. -/
def generateNameLoop (agentType : JStr) (existing : List JStr) (files : RegDir)
    (alive : Nat → Bool) (pid : Nat) : Nat → Nat → JStr
  | _, 0 => agentType ++ jstr "-" ++ natStr pid
  | i, fuel + 1 =>
    let name := seqName agentType i
    if !(existing.contains name) then name
    else
      match fsRead files (name ++ jstr ".json") with
      | some (some reg) =>
        if alive reg.pid then
          generateNameLoop agentType existing files alive pid (i + 1) fuel
        else name
      | _ => name

/-- Translation of `generateName` from `registry.ts`.  The `PI_AGENT_NAME`
environment variable is the `explicitName` argument, directory existence and
process liveness are explicit parameters, and the success path of the
`readdirSync` call is modelled (its catch clause is an I/O failure mode
outside the string-level model). -/
def generateName (explicitName : Option JStr) (agentType : JStr)
    (registryExists : Bool) (files : RegDir) (alive : Nat → Bool) (pid : Nat) : JStr :=
  match explicitName with
  | some n => n
  | none =>
    if !registryExists then seqName agentType 1
    else generateNameLoop agentType (existingNames files) files alive pid 1 99

/-- Decidable form of the hypothesis of claim C10 for one candidate name:
the registry listing contains the name and its record parses to a live
process. -/
def hasLiveRecord (files : RegDir) (alive : Nat → Bool) (name : JStr) : Bool :=
  match fsRead files (name ++ jstr ".json") with
  | some (some reg) => alive reg.pid
  | _ => false

/-- C10: when no explicit-name override is set and every candidate name
from 1 through 99 appears in the registry listing with a record that parses
and names a live process, `generateName` does not fail: it falls back to
the name built from the calling process's own pid. -/
theorem generateName_pid_fallback (agentType : JStr) (files : RegDir)
    (alive : Nat → Bool) (pid : Nat)
    (h : ∀ i ∈ List.range' 1 99,
      (existingNames files).contains (seqName agentType i) = true ∧
      hasLiveRecord files alive (seqName agentType i) = true) :
    generateName none agentType true files alive pid
      = agentType ++ jstr "-" ++ natStr pid := by
  have hloop : ∀ fuel i, i + fuel = 100 → 1 ≤ i →
      generateNameLoop agentType (existingNames files) files alive pid i fuel
        = agentType ++ jstr "-" ++ natStr pid := by
    intro fuel
    induction fuel with
    | zero => intro i _ _; rfl
    | succ n ih =>
      intro i hi h1
      have hmem : i ∈ List.range' 1 99 := by
        rw [List.mem_range'_1]; omega
      obtain ⟨hcont, hlive⟩ := h i hmem
      have hread : ∃ reg, fsRead files (seqName agentType i ++ jstr ".json")
          = some (some reg) ∧ alive reg.pid = true := by
        unfold hasLiveRecord at hlive
        rcases hr : fsRead files (seqName agentType i ++ jstr ".json") with _ | r
        · rw [hr] at hlive; simp at hlive
        · rcases r with _ | reg
          · rw [hr] at hlive; simp at hlive
          · rw [hr] at hlive; exact ⟨reg, rfl, hlive⟩
      obtain ⟨reg, hr, ha⟩ := hread
      rw [generateNameLoop]
      simp only [hcont, Bool.not_true, Bool.false_eq_true, if_false, hr, ha, if_true]
      exact ih (i + 1) (by omega) (by omega)
  unfold generateName
  simp only [Bool.not_true, Bool.false_eq_true, if_false]
  exact hloop 99 1 rfl (by omega)

/-- A live registration used by the witness of claim C10. -/
def c10reg : AgentRegistration :=
  { name := jstr "a", agentType := jstr "a", pid := 7, sessionId := jstr "s",
    cwd := jstr "/w", model := jstr "m", startedAt := jstr "t0",
    reservations := none, gitBranch := none, isHuman := false,
    session := some ⟨0, 0, []⟩, activity := some ⟨jstr "t0", none, none⟩,
    statusMessage := none }

/-- A registry directory in which every name a-1 through a-99 is taken by a
live process. -/
def c10files : RegDir :=
  (List.range' 1 99).map fun i => (seqName (jstr "a") i ++ jstr ".json", some c10reg)

set_option maxRecDepth 10000 in
/-- Witness for `generateName_pid_fallback`: with all 99 sequential names
held by live records, the generated name is the pid fallback. -/
theorem generateName_pid_fallback_witness :
    generateName none (jstr "a") true c10files (fun p => p == 7) 42
      = jstr "a" ++ jstr "-" ++ natStr 42 :=
  generateName_pid_fallback (jstr "a") c10files (fun p => p == 7) 42 (by decide)

-- =============================================================================
-- registry.ts : getActiveAgents  (claim C6)
-- =============================================================================

/-- The short-TTL cache of `getActiveAgents` (`AgentsCache` in
`registry.ts`). -/
structure AgentsCache where
  agents : List AgentRegistration
  timestamp : Int
deriving DecidableEq

/-- The default-field fill-in of `getActiveAgents`: a parsed record missing
`session` or `activity` gets defaults before being returned. -/
def ensureDefaults (reg : AgentRegistration) : AgentRegistration :=
  let reg1 := if reg.session.isNone then
      { reg with session := some ⟨0, 0, []⟩ } else reg
  if reg1.activity.isNone then
    { reg1 with activity := some ⟨reg1.startedAt, none, none⟩ } else reg1

/-- The scan loop of `getActiveAgents` over the registry directory, in
listing order: files not ending in `.json` are ignored, records that fail
to parse are skipped but kept on disk, records of dead processes are
deleted from disk and excluded, and live records are returned with default
fields filled in.  The result is the `allAgents` list and the directory as
left on disk. -/
def scanRegistry (alive : Nat → Bool) : RegDir → List AgentRegistration × RegDir
  | [] => ([], [])
  | (fname, content) :: rest =>
    let r := scanRegistry alive rest
    if !(jsEndsWith fname (jstr ".json")) then (r.1, (fname, content) :: r.2)
    else
      match content with
      | none => (r.1, (fname, content) :: r.2)
      | some reg =>
        if !(alive reg.pid) then (r.1, r.2)
        else (ensureDefaults reg :: r.1, (fname, content) :: r.2)

/-- The cache-miss path of `getActiveAgents`: an absent registry directory
yields an empty result; otherwise the directory is scanned, the cache is
refilled, and the caller's own record is filtered out. -/
def getActiveAgentsScan (agentName : JStr) (now : Int) (registryExists : Bool)
    (files : RegDir) (alive : Nat → Bool) :
    List AgentRegistration × RegDir × Option AgentsCache :=
  if !registryExists then ([], files, some ⟨[], now⟩)
  else
    let r := scanRegistry alive files
    (r.1.filter (fun a => !(a.name == agentName)), r.2, some ⟨r.1, now⟩)

/-- Translation of `getActiveAgents` from `registry.ts`: a fresh cache
answers from memory (filtered by the caller's name); otherwise the registry
is scanned.  The result triple is the returned list, the registry directory
as left on disk, and the new cache. -/
def getActiveAgents (agentName : JStr) (cache : Option AgentsCache)
    (now cacheTtl : Int) (registryExists : Bool) (files : RegDir)
    (alive : Nat → Bool) :
    List AgentRegistration × RegDir × Option AgentsCache :=
  match cache with
  | some c =>
    if now - c.timestamp < cacheTtl then
      (c.agents.filter (fun a => !(a.name == agentName)), files, some c)
    else getActiveAgentsScan agentName now registryExists files alive
  | none => getActiveAgentsScan agentName now registryExists files alive

theorem ensureDefaults_pid (reg : AgentRegistration) :
    (ensureDefaults reg).pid = reg.pid := by
  simp only [ensureDefaults]
  split_ifs <;> rfl

theorem scanRegistry_agents_alive (alive : Nat → Bool) (files : RegDir) :
    ∀ a ∈ (scanRegistry alive files).1, alive a.pid = true := by
  induction files with
  | nil => intro a ha; simp [scanRegistry] at ha
  | cons kv rest ih =>
    obtain ⟨fname, content⟩ := kv
    intro a ha
    by_cases hjson : jsEndsWith fname (jstr ".json") = true
    · rcases content with _ | reg
      · simp only [scanRegistry, hjson, Bool.not_true, Bool.false_eq_true, if_false] at ha
        exact ih a ha
      · by_cases halive : alive reg.pid = true
        · simp only [scanRegistry, hjson, Bool.not_true, Bool.false_eq_true, if_false,
            halive, Bool.not_true] at ha
          rcases List.mem_cons.mp ha with rfl | ha2
          · rw [ensureDefaults_pid]; exact halive
          · exact ih a ha2
        · have hf : alive reg.pid = false := by
            cases h : alive reg.pid
            · rfl
            · exact absurd h halive
          simp only [scanRegistry, hjson, Bool.not_true, Bool.false_eq_true, if_false,
            hf, Bool.not_false, if_true] at ha
          exact ih a ha
    · have hj : jsEndsWith fname (jstr ".json") = false := by
        cases h : jsEndsWith fname (jstr ".json")
        · rfl
        · exact absurd h hjson
      simp only [scanRegistry, hj, Bool.not_false, if_true] at ha
      exact ih a ha

/-- The directory left behind by the scan keeps exactly the entries that
are not parseable-and-dead `.json` records. -/
theorem scanRegistry_kept (alive : Nat → Bool) (files : RegDir) :
    (scanRegistry alive files).2 = files.filter
      (fun kv => !(jsEndsWith kv.1 (jstr ".json") &&
        (match kv.2 with | some reg => !(alive reg.pid) | none => false))) := by
  induction files with
  | nil => rfl
  | cons kv rest ih =>
    obtain ⟨fname, content⟩ := kv
    cases hjson : jsEndsWith fname (jstr ".json") with
    | false => simp [scanRegistry, hjson, ih, List.filter_cons]
    | true =>
      rcases content with _ | reg
      · simp [scanRegistry, hjson, ih, List.filter_cons]
      · cases halive : alive reg.pid with
        | false => simp [scanRegistry, hjson, halive, ih, List.filter_cons]
        | true => simp [scanRegistry, hjson, halive, ih, List.filter_cons]

/-- C6: on a cache miss, one call to `getActiveAgents` returns only agents
with live processes, removes from disk every parseable `.json` record whose
process is dead — even if it was present in the raw store before the call —
and keeps (does not delete) every record that fails to parse. -/
theorem getActiveAgents_lazy_cleanup (agentName : JStr) (cache : Option AgentsCache)
    (now cacheTtl : Int) (files : RegDir) (alive : Nat → Bool)
    (hmiss : cache = none ∨ ∃ c, cache = some c ∧ ¬(now - c.timestamp < cacheTtl)) :
    (∀ a ∈ (getActiveAgents agentName cache now cacheTtl true files alive).1,
        alive a.pid = true) ∧
    (∀ fname reg, (fname, some reg) ∈ files →
        jsEndsWith fname (jstr ".json") = true → alive reg.pid = false →
        (fname, some reg) ∉
          (getActiveAgents agentName cache now cacheTtl true files alive).2.1) ∧
    (∀ fname, (fname, (none : Option AgentRegistration)) ∈ files →
        (fname, (none : Option AgentRegistration)) ∈
          (getActiveAgents agentName cache now cacheTtl true files alive).2.1) := by
  have hcall : getActiveAgents agentName cache now cacheTtl true files alive
      = getActiveAgentsScan agentName now true files alive := by
    rcases hmiss with rfl | ⟨c, rfl, hc⟩
    · rfl
    · simp [getActiveAgents, hc]
  rw [hcall]
  unfold getActiveAgentsScan
  simp only [Bool.not_true, Bool.false_eq_true, if_false]
  refine ⟨?_, ?_, ?_⟩
  · intro a ha
    simp only [List.mem_filter] at ha
    exact scanRegistry_agents_alive alive files a ha.1
  · intro fname reg hmem hjson hdead hkept
    rw [scanRegistry_kept, List.mem_filter] at hkept
    obtain ⟨_, hp⟩ := hkept
    simp [hjson, hdead] at hp
  · intro fname hmem
    rw [scanRegistry_kept, List.mem_filter]
    refine ⟨hmem, ?_⟩
    simp

/-- A dead registration used by the witness of claim C6. -/
def c6dead : AgentRegistration :=
  { name := jstr "dead-1", agentType := jstr "dead", pid := 999,
    sessionId := jstr "s", cwd := jstr "/w", model := jstr "m",
    startedAt := jstr "t0", reservations := none, gitBranch := none,
    isHuman := false, session := some ⟨0, 0, []⟩,
    activity := some ⟨jstr "t0", none, none⟩, statusMessage := none }

/-- Witness for `getActiveAgents_lazy_cleanup`: a store holding one dead
record and one malformed record. -/
theorem getActiveAgents_lazy_cleanup_witness :
    (∀ a ∈ (getActiveAgents (jstr "me") none 0 1000 true
        [(jstr "dead-1.json", some c6dead), (jstr "bad.json", none)]
        (fun _ => false)).1, (fun _ => false) a.pid = true) ∧
    (∀ fname reg, (fname, some reg) ∈
        [(jstr "dead-1.json", some c6dead), (jstr "bad.json", none)] →
        jsEndsWith fname (jstr ".json") = true → (fun _ => false) reg.pid = false →
        (fname, some reg) ∉ (getActiveAgents (jstr "me") none 0 1000 true
          [(jstr "dead-1.json", some c6dead), (jstr "bad.json", none)]
          (fun _ => false)).2.1) ∧
    (∀ fname, (fname, (none : Option AgentRegistration)) ∈
        [(jstr "dead-1.json", some c6dead), (jstr "bad.json", none)] →
        (fname, (none : Option AgentRegistration)) ∈
          (getActiveAgents (jstr "me") none 0 1000 true
            [(jstr "dead-1.json", some c6dead), (jstr "bad.json", none)]
            (fun _ => false)).2.1) :=
  getActiveAgents_lazy_cleanup (jstr "me") none 0 1000
    [(jstr "dead-1.json", some c6dead), (jstr "bad.json", none)]
    (fun _ => false) (Or.inl rfl)

-- =============================================================================
-- registry.ts : renameAgent  (claim C5)
-- =============================================================================

/-- The result record of `renameAgent` (`RenameResult` in `registry.ts`);
the error reasons are the source's string literals. -/
structure RenameResult where
  success : Bool
  oldName : Option JStr
  newName : Option JStr
  error : Option JStr
deriving DecidableEq


/-- The new registration record `renameAgent` writes under the new name
(the object literal in `registry.ts`). -/
def mkRenameRegistration (state : MeshState) (pid : Nat) (ctxSessionId : JStr)
    (ctxModel : Option JStr) (cwd : JStr) (now : JStr) (newName : JStr) :
    AgentRegistration :=
  { name := newName, agentType := state.agentType, pid := pid,
    sessionId := ctxSessionId, cwd := cwd,
    model := ctxModel.getD (jstr "unknown"), startedAt := now,
    reservations := if state.reservations.isEmpty then none
      else some state.reservations,
    gitBranch := state.gitBranch, isHuman := state.isHuman,
    session := some state.session,
    activity := some ⟨now, none, none⟩,
    statusMessage := state.statusMessage }

/-- The write/verify/switch tail of `renameAgent` (everything after the
collision check in `registry.ts`): write the new record, re-read it to
verify the write stuck, delete the old record, and only then switch the
in-memory identity.  `writeOk` models whether `writeFileSync` succeeds and
`interference` models a concurrent writer replacing the new record between
the write and the verifying re-read (`none` = no interference).  The
inbox-directory move touches no registry state and is not modelled. -/
def renameAgentCommit (state : MeshState) (files : RegDir) (pid : Nat)
    (now : JStr) (writeOk : Bool) (interference : Option (Option AgentRegistration))
    (newName : JStr) (registration : AgentRegistration) :
    RenameResult × MeshState × RegDir :=
  if !writeOk then
    (⟨false, none, none, some (jstr "write_failed")⟩, state, files)
  else
    let files2 :=
      match interference with
      | none => fsWrite files (newName ++ jstr ".json") (some registration)
      | some c => fsWrite (fsWrite files (newName ++ jstr ".json")
          (some registration)) (newName ++ jstr ".json") c
    match fsRead files2 (newName ++ jstr ".json") with
    | some (some written) =>
      if !(written.pid == pid) then
        (⟨false, none, none, some (jstr "race_lost")⟩, state, files2)
      else
        (⟨true, some state.agentName, some newName, none⟩,
          { state with
              agentName := newName
              sessionStartedAt := now
              activity := { state.activity with lastActivityAt := now } },
          fsDelete files2 (state.agentName ++ jstr ".json"))
    | _ => (⟨false, none, none, some (jstr "verify_failed")⟩, state, files2)

/-- Translation of `renameAgent` from `registry.ts`: the guard sequence
(registered, valid name, different name, collision check against a live
record of a different pid), then the write/verify/switch tail. -/
def renameAgent (state : MeshState) (files : RegDir) (alive : Nat → Bool)
    (pid : Nat) (ctxSessionId : JStr) (ctxModel : Option JStr) (cwd : JStr)
    (now : JStr) (writeOk : Bool) (interference : Option (Option AgentRegistration))
    (newName : JStr) : RenameResult × MeshState × RegDir :=
  if !state.registered then
    (⟨false, none, none, some (jstr "not_registered")⟩, state, files)
  else if !isValidAgentName newName then
    (⟨false, none, none, some (jstr "invalid_name")⟩, state, files)
  else if newName = state.agentName then
    (⟨false, none, none, some (jstr "same_name")⟩, state, files)
  else if (match fsRead files (newName ++ jstr ".json") with
      | some (some existing) => alive existing.pid && !(existing.pid == pid)
      | _ => false) then
    (⟨false, none, none, some (jstr "name_taken")⟩, state, files)
  else
    renameAgentCommit state files pid now writeOk interference newName
      (mkRenameRegistration state pid ctxSessionId ctxModel cwd now newName)

theorem append_json_ne (a b : JStr) (h : a ≠ b) :
    a ++ jstr ".json" ≠ b ++ jstr ".json" := by
  intro he
  exact h (List.append_cancel_right he)

theorem renameAgentCommit_fail_preserves (state : MeshState) (files : RegDir)
    (pid : Nat) (now : JStr) (writeOk : Bool)
    (intf : Option (Option AgentRegistration)) (newName : JStr)
    (registration : AgentRegistration) (hsame : newName ≠ state.agentName)
    (hfail : (renameAgentCommit state files pid now writeOk intf newName
      registration).1.success = false) :
    (renameAgentCommit state files pid now writeOk intf newName
        registration).2.1 = state ∧
    fsRead (renameAgentCommit state files pid now writeOk intf newName
        registration).2.2 (state.agentName ++ jstr ".json")
      = fsRead files (state.agentName ++ jstr ".json") := by
  have hne : state.agentName ++ jstr ".json" ≠ newName ++ jstr ".json" :=
    append_json_ne _ _ (fun he => hsame he.symm)
  by_cases hw : writeOk = true
  · subst hw
    rcases intf with _ | c2
    · simp only [renameAgentCommit] at hfail ⊢
      simp only [Bool.not_true, Bool.false_eq_true, if_false,
        fsRead_fsWrite_self] at hfail ⊢
      cases hb : registration.pid == pid
      · simp only [hb, Bool.not_false, if_true] at hfail ⊢
        exact ⟨by trivial, fsRead_fsWrite_ne _ _ _ _ hne⟩
      · simp only [hb, Bool.not_true, Bool.false_eq_true, if_false] at hfail
        simp at hfail
    · simp only [renameAgentCommit] at hfail ⊢
      simp only [Bool.not_true, Bool.false_eq_true, if_false,
        fsRead_fsWrite_self] at hfail ⊢
      rcases c2 with _ | w
      · refine ⟨by trivial, ?_⟩
        rw [fsRead_fsWrite_ne _ _ _ _ hne, fsRead_fsWrite_ne _ _ _ _ hne]
      · cases hb : w.pid == pid
        · simp only [hb, Bool.not_false, if_true] at hfail ⊢
          refine ⟨by trivial, ?_⟩
          rw [fsRead_fsWrite_ne _ _ _ _ hne, fsRead_fsWrite_ne _ _ _ _ hne]
        · simp only [hb, Bool.not_true, Bool.false_eq_true, if_false] at hfail
          simp at hfail
  · have hw2 : writeOk = false := by
      cases h : writeOk
      · rfl
      · exact absurd h hw
    subst hw2
    simp only [renameAgentCommit] at hfail ⊢
    simp only [Bool.not_false, if_true]
    exact ⟨by trivial, by trivial⟩

theorem renameAgentCommit_clean_success (state : MeshState) (files : RegDir)
    (pid : Nat) (now : JStr) (newName : JStr) (registration : AgentRegistration)
    (hsame : newName ≠ state.agentName) (hpid : registration.pid = pid) :
    (renameAgentCommit state files pid now true none newName
        registration).1.success = true ∧
    (renameAgentCommit state files pid now true none newName
        registration).2.1.agentName = newName ∧
    fsRead (renameAgentCommit state files pid now true none newName
        registration).2.2 (newName ++ jstr ".json") = some (some registration) := by
  have hb : (registration.pid == pid) = true := by simp [hpid]
  simp only [renameAgentCommit]
  simp only [Bool.not_true, Bool.false_eq_true, if_false, fsRead_fsWrite_self,
    hb, Bool.not_true]
  refine ⟨by trivial, by trivial, ?_⟩
  rw [fsRead_fsDelete_ne _ _ _ (append_json_ne _ _ hsame), fsRead_fsWrite_self]

/-- C5: renaming to a name whose record belongs to a live different process
fails with name_taken and changes nothing; renaming to a name whose record
belongs to a dead process succeeds, overwriting that record; and every
failure of `renameAgent` leaves the in-memory state and the old name's
registry record exactly as they were — the agent is never left without a
valid record. -/
theorem renameAgent_spec (state : MeshState) (files : RegDir) (alive : Nat → Bool)
    (pid : Nat) (sid : JStr) (mdl : Option JStr) (cwd : JStr) (now : JStr)
    (writeOk : Bool) (intf : Option (Option AgentRegistration)) (newName : JStr) :
    (state.registered = true → isValidAgentName newName = true →
      newName ≠ state.agentName →
      ∀ ex, fsRead files (newName ++ jstr ".json") = some (some ex) →
        alive ex.pid = true → ex.pid ≠ pid →
        (renameAgent state files alive pid sid mdl cwd now writeOk intf newName).1.error
            = some (jstr "name_taken") ∧
          (renameAgent state files alive pid sid mdl cwd now writeOk intf newName).2.1
            = state ∧
          (renameAgent state files alive pid sid mdl cwd now writeOk intf newName).2.2
            = files) ∧
    (state.registered = true → isValidAgentName newName = true →
      newName ≠ state.agentName →
      ∀ ex, fsRead files (newName ++ jstr ".json") = some (some ex) →
        alive ex.pid = false →
        (renameAgent state files alive pid sid mdl cwd now true none newName).1.success
            = true ∧
          (renameAgent state files alive pid sid mdl cwd now true none
              newName).2.1.agentName = newName ∧
          ∃ reg, fsRead
              (renameAgent state files alive pid sid mdl cwd now true none newName).2.2
              (newName ++ jstr ".json") = some (some reg) ∧ reg.pid = pid) ∧
    ((renameAgent state files alive pid sid mdl cwd now writeOk intf newName).1.success
        = false →
      (renameAgent state files alive pid sid mdl cwd now writeOk intf newName).2.1
          = state ∧
        fsRead (renameAgent state files alive pid sid mdl cwd now writeOk intf
            newName).2.2 (state.agentName ++ jstr ".json")
          = fsRead files (state.agentName ++ jstr ".json")) := by
  refine ⟨?_, ?_, ?_⟩
  · intro hreg hvalid hdiff ex hread halive hpid
    have hbeq : (ex.pid == pid) = false := by simp [hpid]
    simp [renameAgent, hreg, hvalid, hdiff, hread, halive, hbeq]
  · intro hreg hvalid hdiff ex hread hdead
    have hcall : renameAgent state files alive pid sid mdl cwd now true none newName
        = renameAgentCommit state files pid now true none newName
          (mkRenameRegistration state pid sid mdl cwd now newName) := by
      simp [renameAgent, hreg, hvalid, hdiff, hread, hdead]
    rw [hcall]
    obtain ⟨h1, h2, h3⟩ := renameAgentCommit_clean_success state files pid now newName
      (mkRenameRegistration state pid sid mdl cwd now newName) hdiff rfl
    exact ⟨h1, h2, _, h3, rfl⟩
  · intro hfail
    by_cases hreg : state.registered = true
    · by_cases hvalid : isValidAgentName newName = true
      · by_cases hsame : newName = state.agentName
        · simp only [renameAgent, hreg, Bool.not_true, Bool.false_eq_true, if_false]
          split_ifs <;> simp
        · by_cases htaken : (match fsRead files (newName ++ jstr ".json") with
              | some (some existing) => alive existing.pid && !(existing.pid == pid)
              | _ => false) = true
          · simp [renameAgent, hreg, hvalid, hsame, htaken]
          · have hfalse : (match fsRead files (newName ++ jstr ".json") with
                | some (some existing) => alive existing.pid && !(existing.pid == pid)
                | _ => false) = false := by
              cases h : (match fsRead files (newName ++ jstr ".json") with
                | some (some existing) => alive existing.pid && !(existing.pid == pid)
                | _ => false)
              · rfl
              · exact absurd h htaken
            have hcall : renameAgent state files alive pid sid mdl cwd now writeOk
                intf newName = renameAgentCommit state files pid now writeOk intf
                  newName (mkRenameRegistration state pid sid mdl cwd now newName) := by
              simp [renameAgent, hreg, hvalid, hsame, hfalse]
            rw [hcall] at hfail ⊢
            exact renameAgentCommit_fail_preserves state files pid now writeOk intf
              newName _ hsame hfail
      · have hv : isValidAgentName newName = false := by
          cases h : isValidAgentName newName
          · rfl
          · exact absurd h hvalid
        simp [renameAgent, hreg, hv]
    · have hr : state.registered = false := by
        cases h : state.registered
        · rfl
        · exact absurd h hreg
      simp [renameAgent, hr]

/-- The in-memory state used by the witness of claim C5. -/
def c5state : MeshState :=
  { agentName := jstr "old-1", agentType := jstr "old", registered := true,
    watcher := false, watcherRetryTimer := false, watcherDebounceTimer := false,
    reservations := [], chatHistory := [], unreadCounts := [],
    model := jstr "m", gitBranch := none, isHuman := false,
    session := ⟨0, 0, []⟩, activity := ⟨jstr "t0", none, none⟩,
    statusMessage := none, customStatus := false, registryFlushTimer := false,
    sessionStartedAt := jstr "t0" }

/-- A dead record holding the name the witness renames to. -/
def c5dead : AgentRegistration :=
  { name := jstr "fresh-1", agentType := jstr "fresh", pid := 99,
    sessionId := jstr "s", cwd := jstr "/w", model := jstr "m",
    startedAt := jstr "t0", reservations := none, gitBranch := none,
    isHuman := false, session := some ⟨0, 0, []⟩,
    activity := some ⟨jstr "t0", none, none⟩, statusMessage := none }

/-- The registry directory used by the witness of claim C5. -/
def c5files : RegDir :=
  [(jstr "old-1.json", some c5dead), (jstr "fresh-1.json", some c5dead)]

/-- Witness for `renameAgent_spec`: renaming over a dead record succeeds
and overwrites it. -/
theorem renameAgent_spec_witness :
    (renameAgent c5state c5files (fun p => p == 10) 10 (jstr "s") none
        (jstr "/w") (jstr "t1") true none (jstr "fresh-1")).1.success = true ∧
    (renameAgent c5state c5files (fun p => p == 10) 10 (jstr "s") none
        (jstr "/w") (jstr "t1") true none (jstr "fresh-1")).2.1.agentName
      = jstr "fresh-1" ∧
    ∃ reg, fsRead (renameAgent c5state c5files (fun p => p == 10) 10 (jstr "s")
        none (jstr "/w") (jstr "t1") true none (jstr "fresh-1")).2.2
        (jstr "fresh-1" ++ jstr ".json") = some (some reg) ∧ reg.pid = 10 :=
  (renameAgent_spec c5state c5files (fun p => p == 10) 10 (jstr "s") none
      (jstr "/w") (jstr "t1") true none (jstr "fresh-1")).2.1
    (by decide) (by decide) (by decide) c5dead (by decide) (by decide)

-- =============================================================================
-- index.ts : session_shutdown handler  (claim C1)
-- =============================================================================

/-- The externally observable steps of the shutdown handler, in execution
order: feed appends (via `logEvent`), the registry write of
`updateRegistration`, timer cancellations, closing the inbox watch, and
deleting the registry record. -/
inductive ShutdownAction
  | feedAppend (ev : FeedEvent)
  | registryWrite
  | cancelFlushTimer
  | cancelTrackingTimers
  | cancelDebounceTimer
  | cancelRetryTimer
  | closeWatch
  | deleteRegistration
deriving DecidableEq, Repr

/-- Trace of `removeAllReservations` (`reservations.ts`): one registry
write via `updateRegistration`, then one release feed event per released
pattern, in list order. -/
def removeAllReservationsTrace (agentName : JStr)
    (reservations : List FileReservation) (now : JStr) : List ShutdownAction :=
  .registryWrite ::
    reservations.map fun r =>
      .feedAppend ⟨now, agentName, jstr "release", some r.pattern, none⟩

/-- Trace of `stopWatcher` (`messaging.ts`): cancel the debounce timer and
the retry timer when present, then close the watcher when present. -/
def stopWatcherTrace (state : MeshState) : List ShutdownAction :=
  (if state.watcherDebounceTimer then [.cancelDebounceTimer] else [])
    ++ (if state.watcherRetryTimer then [.cancelRetryTimer] else [])
    ++ (if state.watcher then [.closeWatch] else [])

/-- Trace of the `session_shutdown` handler in `index.ts`: when registered,
write the leave feed event and then release all reservations; then cancel
the registry flush timer when set, cancel the tracking timers, stop the
watcher, and finally unregister (delete the registry record) when
registered. -/
def sessionShutdownTrace (state : MeshState) (now : JStr) : List ShutdownAction :=
  (if state.registered then
      .feedAppend ⟨now, state.agentName, jstr "leave", none, none⟩ ::
        (if state.reservations.isEmpty then []
          else removeAllReservationsTrace state.agentName state.reservations now)
    else [])
  ++ (if state.registryFlushTimer then [.cancelFlushTimer] else [])
  ++ [.cancelTrackingTimers]
  ++ stopWatcherTrace state
  ++ (if state.registered then [.deleteRegistration] else [])

/-- The feed event written by a trace action, if any. -/
def feedEventOf : ShutdownAction → Option FeedEvent
  | .feedAppend ev => some ev
  | _ => none

/-- Whether an action appends a release feed event. -/
def isReleaseAppend : ShutdownAction → Bool
  | .feedAppend ev => ev.type == jstr "release"
  | _ => false

/-- Whether an action appends a leave feed event. -/
def isLeaveAppend : ShutdownAction → Bool
  | .feedAppend ev => ev.type == jstr "leave"
  | _ => false

/-- Whether an action is a teardown step: a timer cancellation, the watch
close, or the registry record deletion. -/
def isTeardownStep : ShutdownAction → Bool
  | .cancelFlushTimer => true
  | .cancelTrackingTimers => true
  | .cancelDebounceTimer => true
  | .cancelRetryTimer => true
  | .closeWatch => true
  | .deleteRegistration => true
  | _ => false

/-- The ordering property asserted by the specification: in the shutdown
trace, every release feed event is observable before (or together with)
the leave feed event. -/
def releasesObservableBeforeLeave (tr : List ShutdownAction) : Prop :=
  ∀ i j : Fin tr.length, isReleaseAppend (tr.get i) = true →
    isLeaveAppend (tr.get j) = true → (i : Nat) ≤ (j : Nat)

/-- A registered shutdown state with one reservation and all timers and the
watcher present, used to exhibit the actual shutdown order. -/
def c1state : MeshState :=
  { agentName := jstr "a-1", agentType := jstr "a", registered := true,
    watcher := true, watcherRetryTimer := true, watcherDebounceTimer := true,
    reservations := [⟨jstr "src/auth/", none, jstr "t0"⟩],
    chatHistory := [], unreadCounts := [],
    model := jstr "m", gitBranch := none, isHuman := false,
    session := ⟨0, 0, []⟩, activity := ⟨jstr "t0", none, none⟩,
    statusMessage := none, customStatus := false, registryFlushTimer := true,
    sessionStartedAt := jstr "t0" }

/-- C1 (counterexample): for a registered agent holding a reservation, the
shutdown handler writes the leave feed event strictly before the release
feed event, so the claimed order — reservation release observable before
(or with) the leave event, after timer cancellation and watch close — is
false on the code. -/
theorem sessionShutdown_leave_before_release :
    ¬ releasesObservableBeforeLeave (sessionShutdownTrace c1state (jstr "t1")) := by
  intro h
  have h01 : (2 : Nat) ≤ 0 := h ⟨2, by decide⟩ ⟨0, by decide⟩ (by decide) (by decide)
  exact absurd h01 (by decide)

/-- C1 (amended): for every registered state, the shutdown trace splits
into a feed phase followed by a teardown phase: the first action writes the
leave feed event, the feed events written are exactly the leave event
followed by one release event per held reservation (so releases are
observable only after the leave event, not before), the teardown phase
writes no feed event, and its — and the whole trace's — last action deletes
the registry record. -/
theorem sessionShutdown_order (state : MeshState) (now : JStr)
    (h : state.registered = true) :
    ∃ front back, sessionShutdownTrace state now = front ++ back ∧
      front.head? = some (.feedAppend ⟨now, state.agentName, jstr "leave", none, none⟩) ∧
      front.filterMap feedEventOf
        = ⟨now, state.agentName, jstr "leave", none, none⟩
          :: state.reservations.map
            (fun r => ⟨now, state.agentName, jstr "release", some r.pattern, none⟩) ∧
      (∀ a ∈ front, isTeardownStep a = false) ∧
      (∀ a ∈ back, feedEventOf a = none) ∧
      back.getLast? = some .deleteRegistration := by
  refine ⟨.feedAppend ⟨now, state.agentName, jstr "leave", none, none⟩ ::
      (if state.reservations.isEmpty then []
        else removeAllReservationsTrace state.agentName state.reservations now),
    (if state.registryFlushTimer then [.cancelFlushTimer] else [])
      ++ [.cancelTrackingTimers] ++ stopWatcherTrace state
      ++ [.deleteRegistration], ?_, ?_, ?_, ?_, ?_, ?_⟩
  · simp only [sessionShutdownTrace, h, if_true]
    simp [List.append_assoc]
  · rfl
  · cases hres : state.reservations.isEmpty
    · have hne : ¬ state.reservations.isEmpty = true := by simp [hres]
      simp only [hres, Bool.false_eq_true, if_false, removeAllReservationsTrace]
      simp only [feedEventOf, List.filterMap_cons, List.filterMap_map]
      have hcomp : (feedEventOf ∘ fun r : FileReservation =>
            ShutdownAction.feedAppend
              ⟨now, state.agentName, jstr "release", some r.pattern, none⟩)
          = some ∘ (fun r : FileReservation =>
              (⟨now, state.agentName, jstr "release", some r.pattern, none⟩ : FeedEvent)) :=
        rfl
      rw [hcomp, List.filterMap_eq_map]
    · have hemp : state.reservations = [] := List.isEmpty_iff.mp hres
      simp [hres, hemp, feedEventOf]
  · intro a ha
    rcases List.mem_cons.mp ha with rfl | ha2
    · rfl
    · split at ha2
      · simp at ha2
      · unfold removeAllReservationsTrace at ha2
        rcases List.mem_cons.mp ha2 with rfl | ha3
        · rfl
        · obtain ⟨r, _, rfl⟩ := List.mem_map.mp ha3
          rfl
  · intro a ha
    simp only [List.mem_append] at ha
    rcases ha with ((ha | ha) | ha) | ha
    · split at ha
      · simp only [List.mem_singleton] at ha; subst ha; rfl
      · simp at ha
    · simp only [List.mem_singleton] at ha; subst ha; rfl
    · unfold stopWatcherTrace at ha
      simp only [List.mem_append] at ha
      rcases ha with (ha | ha) | ha
      all_goals
        split at ha
        · simp only [List.mem_singleton] at ha; subst ha; rfl
        · simp at ha
    · simp only [List.mem_singleton] at ha; subst ha; rfl
  · have h2 : (stopWatcherTrace state ++ [ShutdownAction.deleteRegistration]).getLast?
        = some ShutdownAction.deleteRegistration := by simp [List.getLast?_append]
    simp only [List.getLast?_append, h2]
    cases hf : state.registryFlushTimer <;> simp [h2]

/-- Witness for `sessionShutdown_order` at the concrete registered state. -/
theorem sessionShutdown_order_witness :
    ∃ front back, sessionShutdownTrace c1state (jstr "t1") = front ++ back ∧
      front.head? = some (.feedAppend ⟨jstr "t1", c1state.agentName, jstr "leave",
        none, none⟩) ∧
      front.filterMap feedEventOf
        = ⟨jstr "t1", c1state.agentName, jstr "leave", none, none⟩
          :: c1state.reservations.map
            (fun r => ⟨jstr "t1", c1state.agentName, jstr "release",
              some r.pattern, none⟩) ∧
      (∀ a ∈ front, isTeardownStep a = false) ∧
      (∀ a ∈ back, feedEventOf a = none) ∧
      back.getLast? = some .deleteRegistration :=
  sessionShutdown_order c1state (jstr "t1") rfl

-- =============================================================================
-- messaging.ts : processInbox  (claim C7)
-- =============================================================================

/-- JavaScript default string comparison (`Array.prototype.sort` with no
comparator): lexicographic by code unit. -/
def jstrLe : JStr → JStr → Bool
  | [], _ => true
  | _ :: _, [] => false
  | a :: s, b :: t =>
    if a.toNat < b.toNat then true
    else if b.toNat < a.toNat then false
    else jstrLe s t

/-- Insertion into a sorted list (helper of the sort model). -/
def insertSorted (x : JStr) : List JStr → List JStr
  | [] => [x]
  | y :: ys => if jstrLe x y then x :: y :: ys else y :: insertSorted x ys

/-- Model of `Array.prototype.sort` on the file-name list (insertion sort;
the names are pairwise distinct so any comparison sort agrees). -/
def sortNames : List JStr → List JStr
  | [] => []
  | x :: xs => insertSorted x (sortNames xs)

theorem insertSorted_perm (x : JStr) (l : List JStr) :
    List.Perm (insertSorted x l) (x :: l) := by
  induction l with
  | nil => rfl
  | cons y ys ih =>
    unfold insertSorted
    split_ifs
    · rfl
    · exact (ih.cons y).trans (List.Perm.swap x y ys)

theorem sortNames_perm (l : List JStr) : List.Perm (sortNames l) l := by
  induction l with
  | nil => rfl
  | cons x xs ih => exact (insertSorted_perm x (sortNames xs)).trans (ih.cons x)

/-- The bounded ring push of the chat history: append, then drop the
oldest entry once the length exceeds 50. -/
def pushRing (h : List MeshMessage) (m : MeshMessage) : List MeshMessage :=
  let h1 := h ++ [m]
  if h1.length > 50 then h1.tail else h1

/-- The per-file loop body of `processInbox` over the sorted file names: a
file whose content parses is appended to the sender's chat history ring,
counted in the sender's unread counter, delivered, and deleted; a file that
fails to read or parse is deleted without delivery.  Result: the chat map,
the unread map, the delivered messages in order, and the inbox directory as
left on disk. -/
def processInboxFiles (msgs : FileDir (Option MeshMessage))
    (chat : FileDir (List MeshMessage)) (unread : FileDir Nat) :
    List JStr →
      FileDir (List MeshMessage) × FileDir Nat × List MeshMessage
        × FileDir (Option MeshMessage)
  | [] => (chat, unread, [], msgs)
  | f :: rest =>
    match fsRead msgs f with
    | some (some msg) =>
      let history := (fsRead chat msg.fromName).getD []
      let chat1 := fsWrite chat msg.fromName (pushRing history msg)
      let unread1 := fsWrite unread msg.fromName
        ((fsRead unread msg.fromName).getD 0 + 1)
      let r := processInboxFiles (fsDelete msgs f) chat1 unread1 rest
      (r.1, r.2.1, msg :: r.2.2.1, r.2.2.2)
    | _ => processInboxFiles (fsDelete msgs f) chat unread rest

/-- Translation of `processInbox` from `messaging.ts` for one top-level
invocation (the reentrancy guard is false on entry, as it is for every
non-overlapping call, and the guard's pending re-run logic coordinates
overlapping invocations only): list the inbox, keep the `.json` files,
sort them, and process each in order. -/
def processInbox (registered : Bool) (inboxExists : Bool)
    (msgs : FileDir (Option MeshMessage)) (chat : FileDir (List MeshMessage))
    (unread : FileDir Nat) :
    FileDir (List MeshMessage) × FileDir Nat × List MeshMessage
      × FileDir (Option MeshMessage) :=
  if !registered then (chat, unread, [], msgs)
  else if !inboxExists then (chat, unread, [], msgs)
  else
    let files := sortNames
      ((msgs.map Prod.fst).filter (fun f => jsEndsWith f (jstr ".json")))
    processInboxFiles msgs chat unread files

/-- The message a file of the inbox delivers, if it parses. -/
def parsedMessage (msgs : FileDir (Option MeshMessage)) (f : JStr) :
    Option MeshMessage :=
  match fsRead msgs f with
  | some (some m) => some m
  | _ => none

theorem fsDelete_eq_filter {β : Type} (files : FileDir β) (k : JStr) :
    fsDelete files k = files.filter (fun kv => !(kv.1 == k)) := by
  induction files with
  | nil => rfl
  | cons kv rest ih =>
    obtain ⟨a, v⟩ := kv
    by_cases ha : a = k
    · simp [fsDelete, ha, List.filter_cons, ih]
    · simp [fsDelete, ha, List.filter_cons, ih]

theorem processInboxFiles_spec (names : List JStr) :
    ∀ (msgs : FileDir (Option MeshMessage)) (chat : FileDir (List MeshMessage))
      (unread : FileDir Nat), names.Nodup →
      (processInboxFiles msgs chat unread names).2.2.1
          = names.filterMap (parsedMessage msgs) ∧
      (processInboxFiles msgs chat unread names).2.2.2
          = msgs.filter (fun kv => !(names.contains kv.1)) ∧
      (∀ s, (fsRead (processInboxFiles msgs chat unread names).2.1 s).getD 0
          = (fsRead unread s).getD 0
            + (((processInboxFiles msgs chat unread names).2.2.1).filter
                (fun m => m.fromName == s)).length) ∧
      (∀ s, fsRead (processInboxFiles msgs chat unread names).1 s
          = if (((processInboxFiles msgs chat unread names).2.2.1).filter
                (fun m => m.fromName == s)).isEmpty
            then fsRead chat s
            else some ((((processInboxFiles msgs chat unread names).2.2.1).filter
                (fun m => m.fromName == s)).foldl pushRing
              ((fsRead chat s).getD []))) := by
  induction names with
  | nil =>
    intro msgs chat unread _
    refine ⟨rfl, ?_, ?_, ?_⟩
    · simp [processInboxFiles]
    · intro s; simp [processInboxFiles]
    · intro s; simp [processInboxFiles]
  | cons f rest ih =>
    intro msgs chat unread hnd
    obtain ⟨hf, hndrest⟩ := List.nodup_cons.mp hnd
    have hcongr : ∀ f' ∈ rest,
        parsedMessage (fsDelete msgs f) f' = parsedMessage msgs f' := by
      intro f' hf'
      have hne : f' ≠ f := by
        intro he; rw [he] at hf'; exact hf hf'
      unfold parsedMessage
      rw [fsRead_fsDelete_ne _ _ _ hne]
    have hmfilter : (fsDelete msgs f).filter (fun kv => !(rest.contains kv.1))
        = msgs.filter (fun kv => !((f :: rest).contains kv.1)) := by
      rw [fsDelete_eq_filter, List.filter_filter]
      apply List.filter_congr
      intro kv _
      rw [List.contains_cons]
      cases h1 : kv.1 == f <;> cases h2 : rest.contains kv.1 <;> rfl
    rcases hv : fsRead msgs f with _ | c
    · obtain ⟨ih1, ih2, ih3, ih4⟩ := ih (fsDelete msgs f) chat unread hndrest
      have hred : processInboxFiles msgs chat unread (f :: rest)
          = processInboxFiles (fsDelete msgs f) chat unread rest := by
        simp [processInboxFiles, hv]
      rw [hred]
      have hdel : rest.filterMap (parsedMessage (fsDelete msgs f))
          = rest.filterMap (parsedMessage msgs) := List.filterMap_congr hcongr
      have hhead : parsedMessage msgs f = none := by simp [parsedMessage, hv]
      refine ⟨?_, ?_, ih3, ih4⟩
      · rw [ih1, hdel, List.filterMap_cons, hhead]
      · rw [ih2, hmfilter]
    · rcases c with _ | msg
      · obtain ⟨ih1, ih2, ih3, ih4⟩ := ih (fsDelete msgs f) chat unread hndrest
        have hred : processInboxFiles msgs chat unread (f :: rest)
            = processInboxFiles (fsDelete msgs f) chat unread rest := by
          simp [processInboxFiles, hv]
        rw [hred]
        have hdel : rest.filterMap (parsedMessage (fsDelete msgs f))
            = rest.filterMap (parsedMessage msgs) := List.filterMap_congr hcongr
        have hhead : parsedMessage msgs f = none := by simp [parsedMessage, hv]
        refine ⟨?_, ?_, ih3, ih4⟩
        · rw [ih1, hdel, List.filterMap_cons, hhead]
        · rw [ih2, hmfilter]
      · obtain ⟨ih1, ih2, ih3, ih4⟩ := ih (fsDelete msgs f)
          (fsWrite chat msg.fromName
            (pushRing ((fsRead chat msg.fromName).getD []) msg))
          (fsWrite unread msg.fromName ((fsRead unread msg.fromName).getD 0 + 1))
          hndrest
        have hred : processInboxFiles msgs chat unread (f :: rest)
            = ((processInboxFiles (fsDelete msgs f)
                (fsWrite chat msg.fromName
                  (pushRing ((fsRead chat msg.fromName).getD []) msg))
                (fsWrite unread msg.fromName
                  ((fsRead unread msg.fromName).getD 0 + 1)) rest).1,
              (processInboxFiles (fsDelete msgs f)
                (fsWrite chat msg.fromName
                  (pushRing ((fsRead chat msg.fromName).getD []) msg))
                (fsWrite unread msg.fromName
                  ((fsRead unread msg.fromName).getD 0 + 1)) rest).2.1,
              msg :: (processInboxFiles (fsDelete msgs f)
                (fsWrite chat msg.fromName
                  (pushRing ((fsRead chat msg.fromName).getD []) msg))
                (fsWrite unread msg.fromName
                  ((fsRead unread msg.fromName).getD 0 + 1)) rest).2.2.1,
              (processInboxFiles (fsDelete msgs f)
                (fsWrite chat msg.fromName
                  (pushRing ((fsRead chat msg.fromName).getD []) msg))
                (fsWrite unread msg.fromName
                  ((fsRead unread msg.fromName).getD 0 + 1)) rest).2.2.2) := by
          simp [processInboxFiles, hv]
        have hdel : rest.filterMap (parsedMessage (fsDelete msgs f))
            = rest.filterMap (parsedMessage msgs) := List.filterMap_congr hcongr
        have hhead : parsedMessage msgs f = some msg := by simp [parsedMessage, hv]
        rw [hred]
        refine ⟨?_, ?_, ?_, ?_⟩
        · simp only [List.filterMap_cons, hhead]
          rw [ih1, hdel]
        · rw [ih2, hmfilter]
        · intro s
          rw [ih3 s]
          by_cases hs : msg.fromName = s
          · subst hs
            rw [fsRead_fsWrite_self]
            simp only [Option.getD_some, List.filter_cons, beq_self_eq_true,
              if_true, List.length_cons]
            omega
          · rw [fsRead_fsWrite_ne _ _ _ _ (fun he => hs he.symm)]
            have hb : (msg.fromName == s) = false := by simp [hs]
            simp only [List.filter_cons, hb, Bool.false_eq_true, if_false]
        · intro s
          rw [ih4 s]
          by_cases hs : msg.fromName = s
          · subst hs
            rw [fsRead_fsWrite_self]
            simp only [List.filter_cons, beq_self_eq_true, if_true,
              Option.getD_some]
            cases hrest : ((processInboxFiles (fsDelete msgs f)
                (fsWrite chat msg.fromName
                  (pushRing ((fsRead chat msg.fromName).getD []) msg))
                (fsWrite unread msg.fromName
                  ((fsRead unread msg.fromName).getD 0 + 1)) rest).2.2.1).filter
                (fun m => m.fromName == msg.fromName) with
            | nil => simp [List.foldl_cons]
            | cons m2 ms => simp [List.foldl_cons]
          · rw [fsRead_fsWrite_ne _ _ _ _ (fun he => hs he.symm)]
            have hb : (msg.fromName == s) = false := by simp [hs]
            simp only [List.filter_cons, hb, Bool.false_eq_true, if_false]

/-- C7: one call of `processInbox` on a registered agent's existing inbox
delivers exactly the parseable messages of the `.json` inbox files, in
sorted-filename order, each exactly once; it deletes every processed file
(well-formed after delivery, malformed immediately and without delivery),
so that no `.json` file survives to be delivered or retried again; each
delivered message is appended to its sender's chat-history ring; and each
sender's unread counter grows by exactly its number of delivered
messages. -/
theorem processInbox_spec (msgs : FileDir (Option MeshMessage))
    (chat : FileDir (List MeshMessage)) (unread : FileDir Nat)
    (hnodup : (msgs.map Prod.fst).Nodup) :
    (processInbox true true msgs chat unread).2.2.1
        = (sortNames ((msgs.map Prod.fst).filter
            (fun f => jsEndsWith f (jstr ".json")))).filterMap
          (parsedMessage msgs) ∧
    (processInbox true true msgs chat unread).2.2.2
        = msgs.filter (fun kv => !(jsEndsWith kv.1 (jstr ".json"))) ∧
    (∀ s, (fsRead (processInbox true true msgs chat unread).2.1 s).getD 0
        = (fsRead unread s).getD 0
          + (((processInbox true true msgs chat unread).2.2.1).filter
              (fun m => m.fromName == s)).length) ∧
    (∀ s, fsRead (processInbox true true msgs chat unread).1 s
        = if (((processInbox true true msgs chat unread).2.2.1).filter
              (fun m => m.fromName == s)).isEmpty
          then fsRead chat s
          else some ((((processInbox true true msgs chat unread).2.2.1).filter
              (fun m => m.fromName == s)).foldl pushRing
            ((fsRead chat s).getD []))) := by
  have hred : processInbox true true msgs chat unread
      = processInboxFiles msgs chat unread
          (sortNames ((msgs.map Prod.fst).filter
            (fun f => jsEndsWith f (jstr ".json")))) := by
    simp [processInbox]
  have hperm := sortNames_perm
    ((msgs.map Prod.fst).filter (fun f => jsEndsWith f (jstr ".json")))
  have hnd : (sortNames ((msgs.map Prod.fst).filter
      (fun f => jsEndsWith f (jstr ".json")))).Nodup :=
    hperm.nodup_iff.mpr (hnodup.filter _)
  obtain ⟨h1, h2, h3, h4⟩ := processInboxFiles_spec _ msgs chat unread hnd
  rw [hred]
  refine ⟨h1, ?_, h3, h4⟩
  rw [h2]
  apply List.filter_congr
  intro kv hkv
  have hkey : kv.1 ∈ msgs.map Prod.fst := List.mem_map.mpr ⟨kv, hkv, rfl⟩
  cases hj : jsEndsWith kv.1 (jstr ".json")
  · have hnotmem : kv.1 ∉ sortNames ((msgs.map Prod.fst).filter
        (fun f => jsEndsWith f (jstr ".json"))) := by
      rw [hperm.mem_iff]
      intro hmem
      have := (List.mem_filter.mp hmem).2
      rw [hj] at this
      exact absurd this (by decide)
    have : (sortNames ((msgs.map Prod.fst).filter
        (fun f => jsEndsWith f (jstr ".json")))).contains kv.1 = false := by
      cases hc : (sortNames ((msgs.map Prod.fst).filter
          (fun f => jsEndsWith f (jstr ".json")))).contains kv.1
      · rfl
      · exact absurd (by simpa using hc) hnotmem
    rw [this]
  · have hmem : kv.1 ∈ sortNames ((msgs.map Prod.fst).filter
        (fun f => jsEndsWith f (jstr ".json"))) := by
      rw [hperm.mem_iff]
      exact List.mem_filter.mpr ⟨hkey, hj⟩
    have : (sortNames ((msgs.map Prod.fst).filter
        (fun f => jsEndsWith f (jstr ".json")))).contains kv.1 = true := by
      simpa using hmem
    rw [this]

/-- A first inbox message used by the witness of claim C7. -/
def c7m1 : MeshMessage :=
  ⟨jstr "id1", jstr "x-1", jstr "me", jstr "hello", jstr "t1", false, none⟩

/-- A second inbox message used by the witness of claim C7. -/
def c7m2 : MeshMessage :=
  ⟨jstr "id2", jstr "x-1", jstr "me", jstr "again", jstr "t2", true, none⟩

/-- An inbox with two well-formed messages (listed out of order) and one
malformed file. -/
def c7msgs : FileDir (Option MeshMessage) :=
  [(jstr "200-b.json", some c7m2), (jstr "100-a.json", some c7m1),
    (jstr "150-bad.json", none)]

/-- Witness for `processInbox_spec` on the concrete inbox. -/
theorem processInbox_spec_witness :
    (processInbox true true c7msgs [] []).2.2.1
        = (sortNames ((c7msgs.map Prod.fst).filter
            (fun f => jsEndsWith f (jstr ".json")))).filterMap
          (parsedMessage c7msgs) ∧
    (processInbox true true c7msgs [] []).2.2.2
        = c7msgs.filter (fun kv => !(jsEndsWith kv.1 (jstr ".json"))) ∧
    (∀ s, (fsRead (processInbox true true c7msgs [] []).2.1 s).getD 0
        = (fsRead ([] : FileDir Nat) s).getD 0
          + (((processInbox true true c7msgs [] []).2.2.1).filter
              (fun m => m.fromName == s)).length) ∧
    (∀ s, fsRead (processInbox true true c7msgs [] []).1 s
        = if (((processInbox true true c7msgs [] []).2.2.1).filter
              (fun m => m.fromName == s)).isEmpty
          then fsRead ([] : FileDir (List MeshMessage)) s
          else some ((((processInbox true true c7msgs [] []).2.2.1).filter
              (fun m => m.fromName == s)).foldl pushRing
            ((fsRead ([] : FileDir (List MeshMessage)) s).getD []))) :=
  processInbox_spec c7msgs [] [] (by decide)
